import Mathlib

/-!
Verification of the nodewatcher datastream field/stream engine
(`nodewatcher/modules/monitor/datastream/fields.py`).

The engine is embedded shallowly:

* Python nested tag dictionaries become the inductive type `Tags`; a dict is an
  insertion-ordered association list with unique keys (Python dicts cannot hold
  duplicate keys, and all in-place dict mutations are modelled by the
  corresponding functional operations on the list, which preserve key
  positions exactly as CPython does).
* Exceptions become `Except Err`.
* The external datastream store is modelled by an oracle `Nat → Resp` giving
  the store response to the n-th store call, together with an explicit trace
  of issued `StoreCall`s.
* Mutable aliasing between the custom-tag overlay and the default-tag
  snapshot (relevant for `Field.__init__` / `reset_tags_to_default`) is
  modelled separately with an explicit heap of dict objects.
-/

/-- Python exception kinds raised by the embedded code. -/
inductive Err where
  | keyError
  | typeError
  | attributeError
  | valueError (msg : String)
  | improperlyConfigured (msg : String)
  | inconsistentStreamConfiguration
  | storeError
  | fuelOut
deriving DecidableEq, Repr

/-- The transform slot of a `TagReference`: absent, a string template, or a
callable; callables are referenced by an index into the environment. -/
inductive TransformRef where
  | noTransform
  | template (s : String)
  | call (fnId : Nat)
deriving DecidableEq, Repr

/-- Python values stored in tag dictionaries: scalars, lists, nested dicts and
`TagReference` objects.  A dict is an insertion-ordered association list. -/
inductive Tags where
  | null
  | bool (b : Bool)
  | int (n : Int)
  | str (s : String)
  | list (xs : List Tags)
  | map (xs : List (String × Tags))
  | tagref (paths : List String) (transform : TransformRef)
deriving Repr

/-- An association list representing one Python dict of tags. -/
abbrev Dict := List (String × Tags)

/-- Dict lookup (`d[k]` / `d.get(k)`): value at the first matching key. -/
def lookupD : Dict → String → Option Tags
  | [], _ => none
  | (k, v) :: t, key => if k = key then some v else lookupD t key

/-- Dict assignment `d[k] = v`: replace the value in place if the key is
present, append the new pair otherwise (CPython insertion-order semantics). -/
def insertD : Dict → String → Tags → Dict
  | [], key, val => [(key, val)]
  | (k, v) :: t, key, val =>
    if k = key then (key, val) :: t else (k, v) :: insertD t key val

/-- Replace the value at a key when present; identity when the key is absent. -/
def replaceD : Dict → String → Tags → Dict
  | [], _, _ => []
  | (k, v) :: t, key, val =>
    if k = key then (key, val) :: t else (k, v) :: replaceD t key val

/-- Dict deletion `del d[k]` for a present key. -/
def removeD : Dict → String → Dict
  | [], _ => []
  | (k, v) :: t, key => if k = key then t else (k, v) :: removeD t key

/-- Python truthiness of a tag value (`if not current_value`). -/
def isFalsy : Tags → Bool
  | .null => true
  | .bool b => !b
  | .int n => n == 0
  | .str s => s.isEmpty
  | .list xs => xs.isEmpty
  | .map xs => xs.isEmpty
  | .tagref _ _ => false

/-- Whether a tag value is a `collections.Mapping`. -/
def isMapT : Tags → Bool
  | .map _ => true
  | _ => false

/-!
## `Field.set_tags` (fields.py lines 255-271)

The inner `update(d, u)` deep-merges `u` into `d`:

* if an override value is itself a mapping, recurse into `d.get(k, {})` and
  store the result back (`d[k] = r`); recursing into a non-dict value raises
  unless the override mapping is empty (the loop body never runs);
* otherwise the override value replaces the leaf (`d[k] = u[k]`).
-/

/-- The recursive `update` helper of `Field.set_tags`, acting on the
association-list representation.  `d` is the current dict, `u` the override
items, processed in insertion order. -/
def goUpdate : Dict → Dict → Except Err Dict
  | d, [] => .ok d
  | d, (k, .map vs) :: rest =>
    match lookupD d k with
    | some (.map ds) =>
      match goUpdate ds vs with
      | .ok r => goUpdate (insertD d k (.map r)) rest
      | .error e => .error e
    | some other =>
      -- `update(<non-dict>, vs)`: the loop body raises on the first item
      -- (`.get` on a non-dict); with no items the non-dict is returned and
      -- stored back unchanged.
      if vs.isEmpty then goUpdate (insertD d k other) rest
      else .error .typeError
    | none =>
      match goUpdate ([] : Dict) vs with
      | .ok r => goUpdate (insertD d k (.map r)) rest
      | .error e => .error e
  | d, (k, v) :: rest => goUpdate (insertD d k v) rest

/-- `Field.set_tags(**tags)`: deep-merge the keyword overrides into the
custom tags. -/
def setTags (custom : Dict) (overrides : Dict) : Except Err Dict :=
  goUpdate custom overrides

/-!
## `Field.reset_tags_to_default` (fields.py lines 211-253)

The inner `reset_tags(tags, current_tags, default_tags)`:

* a mapping selector descends; a missing default branch acts as an empty dict;
  a non-mapping default branch is skipped (`continue`); after descending, a
  branch whose current value became falsy is deleted;
* a `True` selector restores the leaf from the defaults when present there and
  deletes it from the current tags otherwise (an unguarded `del`, raising
  `KeyError` when the key is also absent from the current tags);
* any other selector raises `ValueError`.

The current-tags argument can be a non-dict (when `setdefault` returned an
existing leaf); operating on it raises unless every selector item is skipped.
-/

/-- The recursive `reset_tags` helper of `Field.reset_tags_to_default`.
`sel` is the selector item list, `cur` the current tags value (a dict in the
normal case, possibly a leaf), `dft` the default dict at this level.

This is the functional view of the algorithm — the spec models the overlay
and the snapshot as two explicit nested mappings with no hidden shared
structure.  In the program, `current_tags[tag] = default_tags[tag]`
(line 247) copies a *reference*, so this value-level model is exact
precisely for calls issued while the overlay shares no structure with the
snapshot; aliased states (reachable once a previous reset has run — the
defect recorded under claim C4) are captured by the heap model further
below, and the C2 counterexample exercises one such state there. -/
def goReset : Dict → Tags → Dict → Except Err Tags
  | [], cur, _ => .ok cur
  | (k, .map vs) :: rest, cur, dft =>
    -- default_value = default_tags.get(tag, {})
    match (lookupD dft k).getD (.map []) with
    | .map dvs =>
      match cur with
      | .map cs =>
        match lookupD cs k with
        | some cv =>
          -- current_value = current_tags.setdefault(tag, {}) (present)
          match goReset vs cv dvs with
          | .ok r =>
            if isFalsy r then goReset rest (.map (removeD (insertD cs k r) k)) dft
            else goReset rest (.map (insertD cs k r)) dft
          | .error e => .error e
        | none =>
          -- setdefault appends a fresh empty dict at the end
          match goReset vs (.map []) dvs with
          | .ok r =>
            if isFalsy r then goReset rest (.map cs) dft
            else goReset rest (.map (cs ++ [(k, r)])) dft
          | .error e => .error e
      | _ =>
        -- current_tags.setdefault on a non-dict raises AttributeError
        .error .typeError
    | _ =>
      -- default value is not a mapping: `continue`
      goReset rest cur dft
  | (k, .bool true) :: rest, cur, dft =>
    match cur with
    | .map cs =>
      match lookupD dft k with
      | some dv => goReset rest (.map (insertD cs k dv)) dft
      | none =>
        match lookupD cs k with
        | some _ => goReset rest (.map (removeD cs k)) dft
        | none => .error .keyError
    | _ => .error .typeError
  | (_, _) :: _, _, _ =>
    .error (.valueError "Reset tag value should be either a dictionary or a boolean True.")

/-- `Field.reset_tags_to_default(**tags)` applied to the field state
(custom tags, default tags), returning the new custom tags. -/
def resetTagsToDefault (selectors : Dict) (custom : Dict) (dft : Dict) : Except Err Tags :=
  goReset selectors (.map custom) dft

mutual

/-- Selector derived from an override mapping by replacing every leaf with the
boolean `True` (the shape used to reset exactly the keys that were set). -/
def toSelT : Tags → Tags
  | .map xs => .map (toSelL xs)
  | _ => .bool true

/-- List version of `toSelT`. -/
def toSelL : List (String × Tags) → List (String × Tags)
  | [] => []
  | (k, v) :: t => (k, toSelT v) :: toSelL t

end

mutual

/-- Well-formedness of a tag value: every nested dict has pairwise distinct
keys (always true of real Python dicts). -/
def wfT : Tags → Bool
  | .map xs => wfD xs
  | _ => true

/-- Well-formedness of a dict: distinct keys, well-formed values. -/
def wfD : Dict → Bool
  | [] => true
  | (k, v) :: t => !(lookupD t k).isSome && wfT v && wfD t

end

mutual

/-- No value nested anywhere inside this tag value is an empty dict. -/
def neT : Tags → Bool
  | .map xs => !xs.isEmpty && neD xs
  | _ => true

/-- No value of this dict (recursively) is an empty dict; the dict itself may
be empty. -/
def neD : Dict → Bool
  | [] => true
  | (_, v) :: t => neT v && neD t

end

example : setTags [("a", .int 1)] [("a", .int 2)] = .ok [("a", .int 2)] := by
  simp [setTags, goUpdate, insertD, lookupD]

example : resetTagsToDefault [("a", .bool true)] [("a", .int 2)] [("a", .int 1)]
    = .ok (.map [("a", .int 1)]) := by
  simp [resetTagsToDefault, goReset, insertD, lookupD]

example : resetTagsToDefault [("a", .bool true)] [] [] = .error .keyError := by
  simp [resetTagsToDefault, goReset, lookupD]

example : setTags [("v", .map [("x", .int 1)])] [("v", .map [("x", .int 3)])]
    = .ok [("v", .map [("x", .int 3)])] := by
  simp [setTags, goUpdate, insertD, lookupD]

example : resetTagsToDefault (toSelL [("v", .map [("x", .int 3)])])
    [("v", .map [("x", .int 3)])] [("v", .map [("x", .int 1)])]
    = .ok (.map [("v", .map [("x", .int 1)])]) := by
  simp [resetTagsToDefault, goReset, toSelL, toSelT, insertD, lookupD, isFalsy]

/-!
## Association-list algebra

Lemmas about `lookupD` / `insertD` / `replaceD` / `removeD` used to reason
about `set_tags` followed by `reset_tags_to_default`.
-/

theorem lookupD_insertD_self (d : Dict) (k : String) (v : Tags) :
    lookupD (insertD d k v) k = some v := by
  induction d with
  | nil => simp [insertD, lookupD]
  | cons p t ih =>
    obtain ⟨k1, v1⟩ := p
    by_cases h : k1 = k <;> simp [insertD, lookupD, h, ih]

theorem lookupD_insertD_ne (d : Dict) (j k : String) (v : Tags) (h : j ≠ k) :
    lookupD (insertD d k v) j = lookupD d j := by
  induction d with
  | nil => simp [insertD, lookupD, Ne.symm h]
  | cons p t ih =>
    obtain ⟨k1, v1⟩ := p
    by_cases h1 : k1 = k
    · subst h1; simp [insertD, lookupD, Ne.symm h]
    · by_cases h2 : k1 = j <;> simp [insertD, lookupD, h, h1, h2, ih]

theorem lookupD_replaceD_ne (d : Dict) (j k : String) (v : Tags) (h : j ≠ k) :
    lookupD (replaceD d k v) j = lookupD d j := by
  induction d with
  | nil => simp [replaceD]
  | cons p t ih =>
    obtain ⟨k1, v1⟩ := p
    by_cases h1 : k1 = k
    · subst h1; simp [replaceD, lookupD, Ne.symm h]
    · by_cases h2 : k1 = j <;> simp [replaceD, lookupD, h, h1, h2, ih]

theorem lookupD_replaceD_self (d : Dict) (k : String) (v w : Tags)
    (h : lookupD d k = some w) : lookupD (replaceD d k v) k = some v := by
  induction d with
  | nil => simp [lookupD] at h
  | cons p t ih =>
    obtain ⟨k1, v1⟩ := p
    by_cases h1 : k1 = k
    · subst h1; simp [replaceD, lookupD]
    · simp [lookupD, h1] at h
      simp [replaceD, lookupD, h1, ih h]

theorem insertD_eq_replaceD (d : Dict) (k : String) (v w : Tags)
    (h : lookupD d k = some w) : insertD d k v = replaceD d k v := by
  induction d with
  | nil => simp [lookupD] at h
  | cons p t ih =>
    obtain ⟨k1, v1⟩ := p
    by_cases h1 : k1 = k
    · subst h1; simp [insertD, replaceD]
    · simp [lookupD, h1] at h
      simp [insertD, replaceD, h1, ih h]

theorem insertD_eq_append (d : Dict) (k : String) (v : Tags)
    (h : lookupD d k = none) : insertD d k v = d ++ [(k, v)] := by
  induction d with
  | nil => simp [insertD]
  | cons p t ih =>
    obtain ⟨k1, v1⟩ := p
    by_cases h1 : k1 = k
    · subst h1; simp [lookupD] at h
    · simp [lookupD, h1] at h
      simp [insertD, h1, ih h]

theorem replaceD_self (d : Dict) (k : String) (v : Tags)
    (h : lookupD d k = some v) : replaceD d k v = d := by
  induction d with
  | nil => simp [replaceD]
  | cons p t ih =>
    obtain ⟨k1, v1⟩ := p
    by_cases h1 : k1 = k
    · subst h1
      simp [lookupD] at h
      simp [replaceD, h]
    · simp [lookupD, h1] at h
      simp [replaceD, h1, ih h]

theorem replaceD_replaceD (d : Dict) (k : String) (v w : Tags) :
    replaceD (replaceD d k v) k w = replaceD d k w := by
  induction d with
  | nil => simp [replaceD]
  | cons p t ih =>
    obtain ⟨k1, v1⟩ := p
    by_cases h1 : k1 = k
    · subst h1; simp [replaceD]
    · simp [replaceD, h1, ih]

theorem insertD_replaceD_comm (d : Dict) (j k : String) (u w : Tags) (h : j ≠ k) :
    insertD (replaceD d k w) j u = replaceD (insertD d j u) k w := by
  induction d with
  | nil => simp [insertD, replaceD, h, Ne.symm h]
  | cons p t ih =>
    obtain ⟨k1, v1⟩ := p
    by_cases h1 : k1 = k
    · subst h1; simp [insertD, replaceD, h, Ne.symm h, ih]
    · by_cases h2 : k1 = j <;> simp [insertD, replaceD, h, h1, h2, ih]

theorem lookupD_append_none (l1 l2 : Dict) (j : String) (h : lookupD l1 j = none) :
    lookupD (l1 ++ l2) j = lookupD l2 j := by
  induction l1 with
  | nil => simp
  | cons p t ih =>
    obtain ⟨k1, v1⟩ := p
    by_cases h1 : k1 = j
    · simp [lookupD, h1] at h
    · simp [lookupD, h1] at h ⊢
      exact ih h

theorem lookupD_append_some (l1 l2 : Dict) (j : String) (v : Tags)
    (h : lookupD l1 j = some v) : lookupD (l1 ++ l2) j = some v := by
  induction l1 with
  | nil => simp [lookupD] at h
  | cons p t ih =>
    obtain ⟨k1, v1⟩ := p
    by_cases h1 : k1 = j
    · simp [lookupD, h1] at h ⊢; exact h
    · simp [lookupD, h1] at h ⊢
      exact ih h

theorem removeD_append_mid (l1 l2 : Dict) (k : String) (w : Tags)
    (h : lookupD l1 k = none) : removeD (l1 ++ (k, w) :: l2) k = l1 ++ l2 := by
  induction l1 with
  | nil => simp [removeD]
  | cons p t ih =>
    obtain ⟨k1, v1⟩ := p
    by_cases h1 : k1 = k
    · simp [lookupD, h1] at h
    · simp [lookupD, h1] at h
      simp [removeD, h1, ih h]

theorem insertD_append_some (l1 l2 : Dict) (j : String) (u : Tags) (v : Tags)
    (h : lookupD l1 j = some v) : insertD (l1 ++ l2) j u = insertD l1 j u ++ l2 := by
  induction l1 with
  | nil => simp [lookupD] at h
  | cons p t ih =>
    obtain ⟨k1, v1⟩ := p
    by_cases h1 : k1 = j
    · subst h1; simp [insertD]
    · simp [lookupD, h1] at h
      simp [insertD, h1, ih h]

theorem insertD_append_none (l1 l2 : Dict) (j : String) (u : Tags)
    (h : lookupD l1 j = none) : insertD (l1 ++ l2) j u = l1 ++ insertD l2 j u := by
  induction l1 with
  | nil => simp
  | cons p t ih =>
    obtain ⟨k1, v1⟩ := p
    by_cases h1 : k1 = j
    · simp [lookupD, h1] at h
    · simp [lookupD, h1] at h
      simp [insertD, h1, ih h]

theorem removeD_replaceD (d : Dict) (k : String) (x : Tags) :
    removeD (replaceD d k x) k = removeD d k := by
  induction d with
  | nil => simp [replaceD, removeD]
  | cons p t ih =>
    obtain ⟨k1, v1⟩ := p
    by_cases h1 : k1 = k
    · subst h1; simp [replaceD, removeD]
    · simp [replaceD, removeD, h1, ih]

theorem neD_lookup (d : Dict) (k : String) (v : Tags)
    (hne : neD d = true) (h : lookupD d k = some v) : neT v = true := by
  induction d with
  | nil => simp [lookupD] at h
  | cons p t ih =>
    obtain ⟨k1, v1⟩ := p
    simp only [neD, Bool.and_eq_true] at hne
    by_cases h1 : k1 = k
    · simp [lookupD, h1] at h
      subst h
      exact hne.1
    · simp [lookupD, h1] at h
      exact ih hne.2 h

/-- Frame lemma: merging overrides that do not mention key `k` commutes with
replacing the value at `k`. -/
theorem goUpdate_replaceD (M : Dict) : ∀ (d : Dict) (k : String) (w : Tags),
    lookupD M k = none →
    goUpdate (replaceD d k w) M = Except.map (fun c => replaceD c k w) (goUpdate d M) := by
  induction M with
  | nil => intro d k w _; simp [goUpdate, Except.map]
  | cons p rest ih =>
    intro d k w h
    obtain ⟨j, v⟩ := p
    have hj : ¬(j = k) := by
      intro hh; subst hh; simp [lookupD] at h
    have hrest : lookupD rest k = none := by simpa [lookupD, hj] using h
    have step : ∀ u : Tags,
        goUpdate (insertD (replaceD d k w) j u) rest
          = Except.map (fun c => replaceD c k w) (goUpdate (insertD d j u) rest) := by
      intro u
      rw [insertD_replaceD_comm d j k u w hj]
      exact ih _ k w hrest
    cases v with
    | map vs =>
      simp only [goUpdate]
      rw [lookupD_replaceD_ne d j k w hj]
      cases hd : lookupD d j with
      | none =>
        cases hr : goUpdate [] vs with
        | ok r => simpa using step (.map r)
        | error e => simp [Except.map]
      | some dv =>
        cases dv
        case map ds =>
          dsimp only
          cases hr : goUpdate ds vs with
          | ok r => simpa using step (.map r)
          | error e => simp [Except.map]
        all_goals
          cases vs with
          | nil => simpa using step _
          | cons a as => simp [Except.map]
    | null => simpa [goUpdate] using step _
    | bool b => simpa [goUpdate] using step _
    | int n => simpa [goUpdate] using step _
    | str s => simpa [goUpdate] using step _
    | list xs => simpa [goUpdate] using step _
    | tagref ps tr => simpa [goUpdate] using step _

/-- `c1` is `c0` with the fresh entry `(k, w)` inserted at some position, `k`
not occurring in `c0`. -/
def InsRel (k : String) (w : Tags) (c0 c1 : Dict) : Prop :=
  ∃ l1 l2, c0 = l1 ++ l2 ∧ c1 = l1 ++ (k, w) :: l2 ∧ lookupD c0 k = none

theorem InsRel.intro_append (d : Dict) (k : String) (w : Tags)
    (h : lookupD d k = none) : InsRel k w d (d ++ [(k, w)]) :=
  ⟨d, [], by simp, by simp, by simpa using h⟩

theorem InsRel.lookup_self (k : String) (w : Tags) (c0 c1 : Dict)
    (h : InsRel k w c0 c1) : lookupD c1 k = some w := by
  obtain ⟨l1, l2, h0, h1, hn⟩ := h
  subst h0 h1
  have hl1 : lookupD l1 k = none := by
    cases hh : lookupD l1 k with
    | none => rfl
    | some v => rw [lookupD_append_some l1 l2 k v hh] at hn; exact absurd hn (by simp)
  rw [lookupD_append_none l1 _ k hl1]
  simp [lookupD]

theorem InsRel.lookup_ne (k : String) (w : Tags) (c0 c1 : Dict) (j : String)
    (h : InsRel k w c0 c1) (hj : ¬(j = k)) : lookupD c1 j = lookupD c0 j := by
  obtain ⟨l1, l2, h0, h1, hn⟩ := h
  subst h0 h1
  cases hh : lookupD l1 j with
  | some v => rw [lookupD_append_some l1 _ j v hh, lookupD_append_some l1 _ j v hh]
  | none =>
    rw [lookupD_append_none l1 _ j hh, lookupD_append_none l1 _ j hh]
    simp only [lookupD]
    rw [if_neg (fun hc : k = j => hj hc.symm)]

theorem InsRel.remove (k : String) (w : Tags) (c0 c1 : Dict)
    (h : InsRel k w c0 c1) : removeD c1 k = c0 := by
  obtain ⟨l1, l2, h0, h1, hn⟩ := h
  subst h0 h1
  have hl1 : lookupD l1 k = none := by
    cases hh : lookupD l1 k with
    | none => rfl
    | some v => rw [lookupD_append_some l1 l2 k v hh] at hn; exact absurd hn (by simp)
  exact removeD_append_mid l1 l2 k w hl1

theorem InsRel.insert (k : String) (w : Tags) (c0 c1 : Dict) (j : String) (u : Tags)
    (h : InsRel k w c0 c1) (hj : ¬(j = k)) :
    InsRel k w (insertD c0 j u) (insertD c1 j u) := by
  obtain ⟨l1, l2, h0, h1, hn⟩ := h
  subst h0 h1
  have hlook : lookupD (insertD (l1 ++ l2) j u) k = none := by
    rw [lookupD_insertD_ne _ k j u (fun hc => hj hc.symm)]
    exact hn
  cases hh : lookupD l1 j with
  | some v =>
    refine ⟨insertD l1 j u, l2, ?_, ?_, hlook⟩
    · rw [insertD_append_some l1 l2 j u v hh]
    · rw [insertD_append_some l1 _ j u v hh]
  | none =>
    refine ⟨l1, insertD l2 j u, ?_, ?_, hlook⟩
    · rw [insertD_append_none l1 l2 j u hh]
    · rw [insertD_append_none l1 _ j u hh]
      simp only [insertD]
      rw [if_neg (fun hc : k = j => hj hc.symm)]

theorem InsRel.replace_remove (k : String) (w w2 : Tags) (c0 c1 : Dict)
    (h : InsRel k w c0 c1) : removeD (replaceD c1 k w2) k = c0 := by
  rw [removeD_replaceD]
  exact InsRel.remove k w c0 c1 h

/-- Frame lemma: merging overrides that do not mention key `k` preserves the
inserted-entry relation at `k`. -/
theorem goUpdate_insrel (M : Dict) : ∀ (k : String) (w : Tags) (d0 d1 c1 : Dict),
    lookupD M k = none → InsRel k w d0 d1 → goUpdate d1 M = .ok c1 →
    ∃ c0, goUpdate d0 M = .ok c0 ∧ InsRel k w c0 c1 := by
  induction M with
  | nil =>
    intro k w d0 d1 c1 _ hrel h
    simp only [goUpdate] at h
    exact ⟨d0, by simp [goUpdate], by rw [← Except.ok.injEq _ _ |>.mp h]; exact hrel⟩
  | cons p rest ih =>
    intro k w d0 d1 c1 h hrel hrun
    obtain ⟨j, v⟩ := p
    have hj : ¬(j = k) := by
      intro hh; subst hh; simp [lookupD] at h
    have hrest : lookupD rest k = none := by simpa [lookupD, hj] using h
    have hlook := InsRel.lookup_ne k w d0 d1 j hrel hj
    cases v with
    | map vs =>
      simp only [goUpdate] at hrun ⊢
      rw [hlook] at hrun
      cases hd : lookupD d0 j with
      | none =>
        rw [hd] at hrun
        dsimp only at hrun ⊢
        cases hr : goUpdate [] vs with
        | ok r =>
          rw [hr] at hrun
          dsimp only at hrun ⊢
          exact ih k w _ _ c1 hrest (InsRel.insert k w d0 d1 j (.map r) hrel hj) hrun
        | error e => rw [hr] at hrun; exact absurd hrun (by simp)
      | some dv =>
        rw [hd] at hrun
        cases dv
        case map ds =>
          dsimp only at hrun ⊢
          cases hr : goUpdate ds vs with
          | ok r =>
            rw [hr] at hrun
            dsimp only at hrun ⊢
            exact ih k w _ _ c1 hrest (InsRel.insert k w d0 d1 j (.map r) hrel hj) hrun
          | error e => rw [hr] at hrun; exact absurd hrun (by simp)
        all_goals
          cases vs with
          | nil =>
            dsimp only at hrun ⊢
            exact ih k w _ _ c1 hrest (InsRel.insert k w d0 d1 j _ hrel hj) hrun
          | cons a as => exact absurd hrun (by simp)
    | null =>
      simp only [goUpdate] at hrun ⊢
      exact ih k w _ _ c1 hrest (InsRel.insert k w d0 d1 j _ hrel hj) hrun
    | bool b =>
      simp only [goUpdate] at hrun ⊢
      exact ih k w _ _ c1 hrest (InsRel.insert k w d0 d1 j _ hrel hj) hrun
    | int n =>
      simp only [goUpdate] at hrun ⊢
      exact ih k w _ _ c1 hrest (InsRel.insert k w d0 d1 j _ hrel hj) hrun
    | str s =>
      simp only [goUpdate] at hrun ⊢
      exact ih k w _ _ c1 hrest (InsRel.insert k w d0 d1 j _ hrel hj) hrun
    | list xs =>
      simp only [goUpdate] at hrun ⊢
      exact ih k w _ _ c1 hrest (InsRel.insert k w d0 d1 j _ hrel hj) hrun
    | tagref ps tr =>
      simp only [goUpdate] at hrun ⊢
      exact ih k w _ _ c1 hrest (InsRel.insert k w d0 d1 j _ hrel hj) hrun

/-- Frame lemma: merging overrides that do not mention key `k` does not change
the value found at `k`. -/
theorem goUpdate_lookup_frame (M : Dict) : ∀ (d c : Dict) (k : String),
    lookupD M k = none → goUpdate d M = .ok c → lookupD c k = lookupD d k := by
  induction M with
  | nil =>
    intro d c k _ h
    simp only [goUpdate] at h
    rw [← Except.ok.injEq _ _ |>.mp h]
  | cons p rest ih =>
    intro d c k h hrun
    obtain ⟨j, v⟩ := p
    have hj : ¬(j = k) := by
      intro hh; subst hh; simp [lookupD] at h
    have hrest : lookupD rest k = none := by simpa [lookupD, hj] using h
    have hins : ∀ u : Tags, lookupD (insertD d j u) k = lookupD d k :=
      fun u => lookupD_insertD_ne d k j u (fun hc => hj hc.symm)
    cases v with
    | map vs =>
      simp only [goUpdate] at hrun
      cases hd : lookupD d j with
      | none =>
        rw [hd] at hrun
        dsimp only at hrun
        cases hr : goUpdate [] vs with
        | ok r =>
          rw [hr] at hrun
          dsimp only at hrun
          rw [ih _ c k hrest hrun, hins _]
        | error e => rw [hr] at hrun; exact absurd hrun (by simp)
      | some dv =>
        rw [hd] at hrun
        cases dv
        case map ds =>
          dsimp only at hrun
          cases hr : goUpdate ds vs with
          | ok r =>
            rw [hr] at hrun
            dsimp only at hrun
            rw [ih _ c k hrest hrun, hins _]
          | error e => rw [hr] at hrun; exact absurd hrun (by simp)
        all_goals
          cases vs with
          | nil =>
            dsimp only at hrun
            rw [ih _ c k hrest hrun, hins _]
          | cons a as => exact absurd hrun (by simp)
    | null => simp only [goUpdate] at hrun; rw [ih _ c k hrest hrun, hins _]
    | bool b => simp only [goUpdate] at hrun; rw [ih _ c k hrest hrun, hins _]
    | int n => simp only [goUpdate] at hrun; rw [ih _ c k hrest hrun, hins _]
    | str s => simp only [goUpdate] at hrun; rw [ih _ c k hrest hrun, hins _]
    | list xs => simp only [goUpdate] at hrun; rw [ih _ c k hrest hrun, hins _]
    | tagref ps tr => simp only [goUpdate] at hrun; rw [ih _ c k hrest hrun, hins _]

/-- Main roundtrip lemma: when the custom tags equal the default snapshot and
no value inside the snapshot is an empty dict, `set_tags` with overrides `M`
followed by `reset_tags_to_default` with the matching selectors restores the
custom tags exactly. -/
theorem update_reset_restores : ∀ (M d c : Dict),
    wfD M = true → neD d = true → goUpdate d M = .ok c →
    goReset (toSelL M) (.map c) d = .ok (.map d)
  | [], d, c, _, _, h => by
    simp only [goUpdate, Except.ok.injEq] at h
    subst h
    simp [toSelL, goReset]
  | (j, v) :: rest, d, c, hwf, hne, h => by
    have hwf2 := hwf
    simp only [wfD, Bool.and_eq_true] at hwf2
    obtain ⟨⟨hj0, hwfv⟩, hwfrest⟩ := hwf2
    have hnone : lookupD rest j = none := by
      cases hl : lookupD rest j with
      | none => rfl
      | some x => rw [hl] at hj0; simp at hj0
    cases v with
    | map vs =>
      have hwfvs : wfD vs = true := by simpa [wfT] using hwfv
      simp only [goUpdate] at h
      simp only [toSelL, toSelT]
      cases hd : lookupD d j with
      | some dv =>
        rw [hd] at h
        cases dv with
        | map ds =>
          try dsimp only at h
          cases hu : goUpdate ds vs with
          | error e => rw [hu] at h; try dsimp only at h; exact absurd h (by simp)
          | ok r =>
            rw [hu] at h
            try dsimp only at h
            rw [insertD_eq_replaceD d j (.map r) (.map ds) hd,
                goUpdate_replaceD rest d j (.map r) hnone] at h
            cases hgr : goUpdate d rest with
            | error e => rw [hgr] at h; exact absurd h (by simp [Except.map])
            | ok c0 =>
              rw [hgr] at h
              simp only [Except.map, Except.ok.injEq] at h
              subst h
              have hlookc0 : lookupD c0 j = some (.map ds) := by
                rw [goUpdate_lookup_frame rest d c0 j hnone hgr]; exact hd
              have hnet : neT (.map ds) = true := neD_lookup d j (.map ds) hne hd
              have hdsne : ds.isEmpty = false := by
                simp only [neT, Bool.and_eq_true] at hnet
                simpa using hnet.1
              have hneds : neD ds = true := by
                simp only [neT, Bool.and_eq_true] at hnet
                exact hnet.2
              simp only [goReset]
              rw [hd]
              simp only [Option.getD]
              try dsimp only
              rw [lookupD_replaceD_self c0 j (.map r) (.map ds) hlookc0]
              try dsimp only
              rw [update_reset_restores vs ds r hwfvs hneds hu]
              try dsimp only
              rw [if_neg (by simp [isFalsy, hdsne])]
              have hc : insertD (replaceD c0 j (.map r)) j (.map ds) = c0 := by
                rw [insertD_eq_replaceD _ j (.map ds) (.map r)
                      (lookupD_replaceD_self c0 j (.map r) (.map ds) hlookc0),
                    replaceD_replaceD, replaceD_self c0 j (.map ds) hlookc0]
              rw [hc]
              exact update_reset_restores rest d c0 hwfrest hne hgr
        | null =>
          try dsimp only at h
          cases vs with
          | cons a as => exact absurd h (by simp)
          | nil =>
            simp only [List.isEmpty_nil, if_true] at h
            have hins : insertD d j Tags.null = d := by
              rw [insertD_eq_replaceD d j Tags.null Tags.null hd, replaceD_self d j Tags.null hd]
            rw [hins] at h
            simp only [goReset]
            rw [hd]
            simp only [Option.getD]
            try dsimp only
            exact update_reset_restores rest d c hwfrest hne h
        | bool b =>
          try dsimp only at h
          cases vs with
          | cons a as => exact absurd h (by simp)
          | nil =>
            simp only [List.isEmpty_nil, if_true] at h
            have hins : insertD d j (Tags.bool b) = d := by
              rw [insertD_eq_replaceD d j (Tags.bool b) (Tags.bool b) hd, replaceD_self d j (Tags.bool b) hd]
            rw [hins] at h
            simp only [goReset]
            rw [hd]
            simp only [Option.getD]
            try dsimp only
            exact update_reset_restores rest d c hwfrest hne h
        | int n =>
          try dsimp only at h
          cases vs with
          | cons a as => exact absurd h (by simp)
          | nil =>
            simp only [List.isEmpty_nil, if_true] at h
            have hins : insertD d j (Tags.int n) = d := by
              rw [insertD_eq_replaceD d j (Tags.int n) (Tags.int n) hd, replaceD_self d j (Tags.int n) hd]
            rw [hins] at h
            simp only [goReset]
            rw [hd]
            simp only [Option.getD]
            try dsimp only
            exact update_reset_restores rest d c hwfrest hne h
        | str s =>
          try dsimp only at h
          cases vs with
          | cons a as => exact absurd h (by simp)
          | nil =>
            simp only [List.isEmpty_nil, if_true] at h
            have hins : insertD d j (Tags.str s) = d := by
              rw [insertD_eq_replaceD d j (Tags.str s) (Tags.str s) hd, replaceD_self d j (Tags.str s) hd]
            rw [hins] at h
            simp only [goReset]
            rw [hd]
            simp only [Option.getD]
            try dsimp only
            exact update_reset_restores rest d c hwfrest hne h
        | list xs2 =>
          try dsimp only at h
          cases vs with
          | cons a as => exact absurd h (by simp)
          | nil =>
            simp only [List.isEmpty_nil, if_true] at h
            have hins : insertD d j (Tags.list xs2) = d := by
              rw [insertD_eq_replaceD d j (Tags.list xs2) (Tags.list xs2) hd, replaceD_self d j (Tags.list xs2) hd]
            rw [hins] at h
            simp only [goReset]
            rw [hd]
            simp only [Option.getD]
            try dsimp only
            exact update_reset_restores rest d c hwfrest hne h
        | tagref ps tr =>
          try dsimp only at h
          cases vs with
          | cons a as => exact absurd h (by simp)
          | nil =>
            simp only [List.isEmpty_nil, if_true] at h
            have hins : insertD d j (Tags.tagref ps tr) = d := by
              rw [insertD_eq_replaceD d j (Tags.tagref ps tr) (Tags.tagref ps tr) hd, replaceD_self d j (Tags.tagref ps tr) hd]
            rw [hins] at h
            simp only [goReset]
            rw [hd]
            simp only [Option.getD]
            try dsimp only
            exact update_reset_restores rest d c hwfrest hne h
      | none =>
        rw [hd] at h
        try dsimp only at h
        cases hu : goUpdate [] vs with
        | error e => rw [hu] at h; try dsimp only at h; exact absurd h (by simp)
        | ok r =>
          rw [hu] at h
          try dsimp only at h
          rw [insertD_eq_append d j (.map r) hd] at h
          obtain ⟨c0, hgr, hrel2⟩ :=
            goUpdate_insrel rest j (.map r) d _ c hnone (InsRel.intro_append d j (.map r) hd) h
          simp only [goReset]
          rw [hd]
          simp only [Option.getD]
          try dsimp only
          rw [InsRel.lookup_self j (.map r) c0 c hrel2]
          try dsimp only
          rw [update_reset_restores vs [] r hwfvs (by simp [neD]) hu]
          try dsimp only
          rw [if_pos (by simp [isFalsy])]
          have hrm : removeD (insertD c j (.map [])) j = c0 := by
            rw [insertD_eq_replaceD c j (.map []) (.map r)
                  (InsRel.lookup_self j (.map r) c0 c hrel2),
                removeD_replaceD]
            exact InsRel.remove j (.map r) c0 c hrel2
          rw [hrm]
          exact update_reset_restores rest d c0 hwfrest hne hgr
    | null =>
      simp only [goUpdate] at h
      simp only [toSelL, toSelT]
      cases hd : lookupD d j with
      | some dv0 =>
        rw [insertD_eq_replaceD d j Tags.null dv0 hd, goUpdate_replaceD rest d j Tags.null hnone] at h
        cases hgr : goUpdate d rest with
        | error e => rw [hgr] at h; exact absurd h (by simp [Except.map])
        | ok c0 =>
          rw [hgr] at h
          simp only [Except.map, Except.ok.injEq] at h
          subst h
          have hlookc0 : lookupD c0 j = some dv0 := by
            rw [goUpdate_lookup_frame rest d c0 j hnone hgr]; exact hd
          simp only [goReset]
          rw [hd]
          try dsimp only
          have hc : insertD (replaceD c0 j Tags.null) j dv0 = c0 := by
            rw [insertD_eq_replaceD _ j dv0 Tags.null (lookupD_replaceD_self c0 j Tags.null dv0 hlookc0),
                replaceD_replaceD, replaceD_self c0 j dv0 hlookc0]
          rw [hc]
          exact update_reset_restores rest d c0 hwfrest hne hgr
      | none =>
        rw [insertD_eq_append d j Tags.null hd] at h
        obtain ⟨c0, hgr, hrel2⟩ :=
          goUpdate_insrel rest j Tags.null d _ c hnone (InsRel.intro_append d j Tags.null hd) h
        simp only [goReset]
        rw [hd]
        try dsimp only
        rw [InsRel.lookup_self j Tags.null c0 c hrel2]
        try dsimp only
        rw [InsRel.remove j Tags.null c0 c hrel2]
        exact update_reset_restores rest d c0 hwfrest hne hgr
    | bool b =>
      simp only [goUpdate] at h
      simp only [toSelL, toSelT]
      cases hd : lookupD d j with
      | some dv0 =>
        rw [insertD_eq_replaceD d j (Tags.bool b) dv0 hd, goUpdate_replaceD rest d j (Tags.bool b) hnone] at h
        cases hgr : goUpdate d rest with
        | error e => rw [hgr] at h; exact absurd h (by simp [Except.map])
        | ok c0 =>
          rw [hgr] at h
          simp only [Except.map, Except.ok.injEq] at h
          subst h
          have hlookc0 : lookupD c0 j = some dv0 := by
            rw [goUpdate_lookup_frame rest d c0 j hnone hgr]; exact hd
          simp only [goReset]
          rw [hd]
          try dsimp only
          have hc : insertD (replaceD c0 j (Tags.bool b)) j dv0 = c0 := by
            rw [insertD_eq_replaceD _ j dv0 (Tags.bool b) (lookupD_replaceD_self c0 j (Tags.bool b) dv0 hlookc0),
                replaceD_replaceD, replaceD_self c0 j dv0 hlookc0]
          rw [hc]
          exact update_reset_restores rest d c0 hwfrest hne hgr
      | none =>
        rw [insertD_eq_append d j (Tags.bool b) hd] at h
        obtain ⟨c0, hgr, hrel2⟩ :=
          goUpdate_insrel rest j (Tags.bool b) d _ c hnone (InsRel.intro_append d j (Tags.bool b) hd) h
        simp only [goReset]
        rw [hd]
        try dsimp only
        rw [InsRel.lookup_self j (Tags.bool b) c0 c hrel2]
        try dsimp only
        rw [InsRel.remove j (Tags.bool b) c0 c hrel2]
        exact update_reset_restores rest d c0 hwfrest hne hgr
    | int n =>
      simp only [goUpdate] at h
      simp only [toSelL, toSelT]
      cases hd : lookupD d j with
      | some dv0 =>
        rw [insertD_eq_replaceD d j (Tags.int n) dv0 hd, goUpdate_replaceD rest d j (Tags.int n) hnone] at h
        cases hgr : goUpdate d rest with
        | error e => rw [hgr] at h; exact absurd h (by simp [Except.map])
        | ok c0 =>
          rw [hgr] at h
          simp only [Except.map, Except.ok.injEq] at h
          subst h
          have hlookc0 : lookupD c0 j = some dv0 := by
            rw [goUpdate_lookup_frame rest d c0 j hnone hgr]; exact hd
          simp only [goReset]
          rw [hd]
          try dsimp only
          have hc : insertD (replaceD c0 j (Tags.int n)) j dv0 = c0 := by
            rw [insertD_eq_replaceD _ j dv0 (Tags.int n) (lookupD_replaceD_self c0 j (Tags.int n) dv0 hlookc0),
                replaceD_replaceD, replaceD_self c0 j dv0 hlookc0]
          rw [hc]
          exact update_reset_restores rest d c0 hwfrest hne hgr
      | none =>
        rw [insertD_eq_append d j (Tags.int n) hd] at h
        obtain ⟨c0, hgr, hrel2⟩ :=
          goUpdate_insrel rest j (Tags.int n) d _ c hnone (InsRel.intro_append d j (Tags.int n) hd) h
        simp only [goReset]
        rw [hd]
        try dsimp only
        rw [InsRel.lookup_self j (Tags.int n) c0 c hrel2]
        try dsimp only
        rw [InsRel.remove j (Tags.int n) c0 c hrel2]
        exact update_reset_restores rest d c0 hwfrest hne hgr
    | str s =>
      simp only [goUpdate] at h
      simp only [toSelL, toSelT]
      cases hd : lookupD d j with
      | some dv0 =>
        rw [insertD_eq_replaceD d j (Tags.str s) dv0 hd, goUpdate_replaceD rest d j (Tags.str s) hnone] at h
        cases hgr : goUpdate d rest with
        | error e => rw [hgr] at h; exact absurd h (by simp [Except.map])
        | ok c0 =>
          rw [hgr] at h
          simp only [Except.map, Except.ok.injEq] at h
          subst h
          have hlookc0 : lookupD c0 j = some dv0 := by
            rw [goUpdate_lookup_frame rest d c0 j hnone hgr]; exact hd
          simp only [goReset]
          rw [hd]
          try dsimp only
          have hc : insertD (replaceD c0 j (Tags.str s)) j dv0 = c0 := by
            rw [insertD_eq_replaceD _ j dv0 (Tags.str s) (lookupD_replaceD_self c0 j (Tags.str s) dv0 hlookc0),
                replaceD_replaceD, replaceD_self c0 j dv0 hlookc0]
          rw [hc]
          exact update_reset_restores rest d c0 hwfrest hne hgr
      | none =>
        rw [insertD_eq_append d j (Tags.str s) hd] at h
        obtain ⟨c0, hgr, hrel2⟩ :=
          goUpdate_insrel rest j (Tags.str s) d _ c hnone (InsRel.intro_append d j (Tags.str s) hd) h
        simp only [goReset]
        rw [hd]
        try dsimp only
        rw [InsRel.lookup_self j (Tags.str s) c0 c hrel2]
        try dsimp only
        rw [InsRel.remove j (Tags.str s) c0 c hrel2]
        exact update_reset_restores rest d c0 hwfrest hne hgr
    | list xs =>
      simp only [goUpdate] at h
      simp only [toSelL, toSelT]
      cases hd : lookupD d j with
      | some dv0 =>
        rw [insertD_eq_replaceD d j (Tags.list xs) dv0 hd, goUpdate_replaceD rest d j (Tags.list xs) hnone] at h
        cases hgr : goUpdate d rest with
        | error e => rw [hgr] at h; exact absurd h (by simp [Except.map])
        | ok c0 =>
          rw [hgr] at h
          simp only [Except.map, Except.ok.injEq] at h
          subst h
          have hlookc0 : lookupD c0 j = some dv0 := by
            rw [goUpdate_lookup_frame rest d c0 j hnone hgr]; exact hd
          simp only [goReset]
          rw [hd]
          try dsimp only
          have hc : insertD (replaceD c0 j (Tags.list xs)) j dv0 = c0 := by
            rw [insertD_eq_replaceD _ j dv0 (Tags.list xs) (lookupD_replaceD_self c0 j (Tags.list xs) dv0 hlookc0),
                replaceD_replaceD, replaceD_self c0 j dv0 hlookc0]
          rw [hc]
          exact update_reset_restores rest d c0 hwfrest hne hgr
      | none =>
        rw [insertD_eq_append d j (Tags.list xs) hd] at h
        obtain ⟨c0, hgr, hrel2⟩ :=
          goUpdate_insrel rest j (Tags.list xs) d _ c hnone (InsRel.intro_append d j (Tags.list xs) hd) h
        simp only [goReset]
        rw [hd]
        try dsimp only
        rw [InsRel.lookup_self j (Tags.list xs) c0 c hrel2]
        try dsimp only
        rw [InsRel.remove j (Tags.list xs) c0 c hrel2]
        exact update_reset_restores rest d c0 hwfrest hne hgr
    | tagref ps tr =>
      simp only [goUpdate] at h
      simp only [toSelL, toSelT]
      cases hd : lookupD d j with
      | some dv0 =>
        rw [insertD_eq_replaceD d j (Tags.tagref ps tr) dv0 hd, goUpdate_replaceD rest d j (Tags.tagref ps tr) hnone] at h
        cases hgr : goUpdate d rest with
        | error e => rw [hgr] at h; exact absurd h (by simp [Except.map])
        | ok c0 =>
          rw [hgr] at h
          simp only [Except.map, Except.ok.injEq] at h
          subst h
          have hlookc0 : lookupD c0 j = some dv0 := by
            rw [goUpdate_lookup_frame rest d c0 j hnone hgr]; exact hd
          simp only [goReset]
          rw [hd]
          try dsimp only
          have hc : insertD (replaceD c0 j (Tags.tagref ps tr)) j dv0 = c0 := by
            rw [insertD_eq_replaceD _ j dv0 (Tags.tagref ps tr) (lookupD_replaceD_self c0 j (Tags.tagref ps tr) dv0 hlookc0),
                replaceD_replaceD, replaceD_self c0 j dv0 hlookc0]
          rw [hc]
          exact update_reset_restores rest d c0 hwfrest hne hgr
      | none =>
        rw [insertD_eq_append d j (Tags.tagref ps tr) hd] at h
        obtain ⟨c0, hgr, hrel2⟩ :=
          goUpdate_insrel rest j (Tags.tagref ps tr) d _ c hnone (InsRel.intro_append d j (Tags.tagref ps tr) hd) h
        simp only [goReset]
        rw [hd]
        try dsimp only
        rw [InsRel.lookup_self j (Tags.tagref ps tr) c0 c hrel2]
        try dsimp only
        rw [InsRel.remove j (Tags.tagref ps tr) c0 c hrel2]
        exact update_reset_restores rest d c0 hwfrest hne hgr
termination_by M d c _ _ _ => sizeOf M

/-- C2, amended claim: `set_tags` with overrides `M` followed by
`reset_tags_to_default` with the same nested keys (leaves replaced by `True`)
restores the custom tags exactly, provided (1) before the `set_tags` call
the custom tags equal the default snapshot *and share no structure with it*
— the state the constructor's `deepcopy` establishes, and the spec's own
modelling assumption ("no hidden shared structure with the default
snapshot") — and (2) the snapshot contains no empty nested mapping.

The statement is over the functional model, which represents exactly the
unaliased states of hypothesis (1): starting from an overlay disjoint from
the snapshot, `update` writes only overlay leaves, overlay dicts and fresh
dicts (never a reference into or out of the snapshot), so the overlay is
still disjoint from the snapshot when the reset runs, and the reset's own
reference-copying assignment (line 247) affects only calls after this pair.
The witness below also replays the pair on the heap model from a
construction-fresh field and checks that the heap readbacks agree. -/
theorem set_reset_roundtrip_amended (M dft cur c : Dict)
    (hwfM : wfD M = true) (hpre : cur = dft) (hne : neD dft = true)
    (hset : setTags cur M = .ok c) :
    resetTagsToDefault (toSelL M) c dft = .ok (.map cur) := by
  subst hpre
  exact update_reset_restores M cur c hwfM hne hset

/-- C9: `reset_tags_to_default` with a `True` selector for a tag present in
neither the current custom tags nor the default snapshot raises `KeyError`
(the unguarded `del current_tags[tag]` on line 249). -/
theorem reset_missing_key_error (cur dft : Dict) (k : String)
    (hc : lookupD cur k = none) (hd : lookupD dft k = none) :
    resetTagsToDefault [(k, .bool true)] cur dft = .error .keyError := by
  simp [resetTagsToDefault, goReset, hc, hd]

/-- Witness for C9 at a concrete field state. -/
theorem reset_missing_key_error_witness :
    resetTagsToDefault [("gone", .bool true)] [("other", .int 1)] []
      = .error .keyError :=
  reset_missing_key_error [("other", .int 1)] [] "gone" rfl rfl

/-!
## Heap model of `Field.__init__` / `set_tags` / `reset_tags_to_default`

The pure `Dict` model above cannot express Python object aliasing.  To check
the default-snapshot invariant (fields.py lines 77-80: `self.default_tags =
copy.deepcopy(self.custom_tags)`), dicts are modelled as mutable heap
objects: a slot holds either an immutable scalar or a reference to a dict
object, and `current_tags[tag] = default_tags[tag]` (line 247) copies the
reference, aliasing part of the default snapshot into the custom tags.
-/

/-- A value stored in a dict slot: an immutable scalar, or a reference to a
mutable dict object on the heap. -/
inductive PV where
  | leaf (v : Tags)
  | ref (a : Nat)
deriving Repr

/-- One Python dict object: insertion-ordered entries. -/
abbrev Obj := List (String × PV)

/-- Heap state: allocated dict objects plus the next fresh address. -/
structure HS where
  heap : List (Nat × Obj)
  next : Nat
deriving Repr

/-- Entry lookup in a dict object. -/
def oLookup : Obj → String → Option PV
  | [], _ => none
  | (k, v) :: t, key => if k = key then some v else oLookup t key

/-- `obj[k] = v`: replace in place or append. -/
def oInsert : Obj → String → PV → Obj
  | [], key, val => [(key, val)]
  | (k, v) :: t, key, val =>
    if k = key then (key, val) :: t else (k, v) :: oInsert t key val

/-- `del obj[k]` for a present key. -/
def oRemove : Obj → String → Obj
  | [], _ => []
  | (k, v) :: t, key => if k = key then t else (k, v) :: oRemove t key

/-- Read the dict object at an address (total; the embedded operations only
dereference addresses they allocated, so the default never fires). -/
def hGetObj (s : HS) (a : Nat) : Obj :=
  go s.heap
where go : List (Nat × Obj) → Obj
  | [] => []
  | (b, o) :: t => if b = a then o else go t

/-- Overwrite the dict object at an address. -/
def hSetObj (s : HS) (a : Nat) (o : Obj) : HS :=
  ⟨go s.heap, s.next⟩
where go : List (Nat × Obj) → List (Nat × Obj)
  | [] => []
  | (b, o2) :: t => if b = a then (b, o) :: t else (b, o2) :: go t

/-- Allocate a fresh dict object. -/
def allocObj (s : HS) (o : Obj) : Nat × HS :=
  (s.next, ⟨s.heap ++ [(s.next, o)], s.next + 1⟩)

mutual

/-- Build the heap representation of a pure tags literal (how Python
constructs a nested dict literal): nested dicts become fresh objects. -/
def allocTags : Tags → HS → PV × HS
  | .map xs, s =>
    let (entries, s2) := allocTagsL xs s
    let (a, s3) := allocObj s2 entries
    (.ref a, s3)
  | t, s => (.leaf t, s)

/-- List version of `allocTags`. -/
def allocTagsL : List (String × Tags) → HS → Obj × HS
  | [], s => ([], s)
  | (k, v) :: t, s =>
    let (pv, s2) := allocTags v s
    let (rest, s3) := allocTagsL t s2
    ((k, pv) :: rest, s3)

end

mutual

/-- `copy.deepcopy` on a slot value: immutable scalars are shared, dict
references are copied recursively into fresh objects.  Fuel bounds the
dereferencing depth. -/
def deepcopyPV : Nat → PV → HS → Option (PV × HS)
  | _, .leaf v, s => some (.leaf v, s)
  | 0, .ref _, _ => none
  | fuel + 1, .ref a, s =>
    match deepcopyObj fuel (hGetObj s a) s with
    | some (entries, s2) =>
      let (b, s3) := allocObj s2 entries
      some (.ref b, s3)
    | none => none
termination_by fuel _ _ => (fuel, 0)

/-- `copy.deepcopy` on the entries of a dict object. -/
def deepcopyObj : Nat → Obj → HS → Option (Obj × HS)
  | _, [], s => some ([], s)
  | fuel, (k, v) :: t, s =>
    match deepcopyPV fuel v s with
    | some (v2, s2) =>
      match deepcopyObj fuel t s2 with
      | some (t2, s3) => some ((k, v2) :: t2, s3)
      | none => none
    | none => none
termination_by fuel o _ => (fuel, o.length + 1)

end

/-- Heap state of a freshly constructed `Field`: the custom-tags dict and the
deep-copied default-tags snapshot (fields.py lines 79-80). -/
structure FieldH where
  customAddr : Nat
  defaultAddr : Nat
  hs : HS
deriving Repr

/-- `Field.__init__(tags=...)`: allocate the custom tags, snapshot the
defaults with `copy.deepcopy`. -/
def mkFieldH (fuel : Nat) (tags : List (String × Tags)) : Option FieldH :=
  let (entries, s1) := allocTagsL tags ⟨[], 0⟩
  let (ca, s2) := allocObj s1 entries
  match deepcopyPV fuel (.ref ca) s2 with
  | some (.ref da, s3) => some ⟨ca, da, s3⟩
  | _ => none

/-- Heap version of the `update` helper of `set_tags`: deep-merges override
items into the dict object at `da`, mutating nested objects in place. -/
def goUpdateH : HS → Nat → List (String × Tags) → Option HS
  | s, _, [] => some s
  | s, da, (k, .map vs) :: rest =>
    match oLookup (hGetObj s da) k with
    | some (.ref b) =>
      -- r = update(d[k], v) mutates the shared object; d[k] = r re-stores it
      match goUpdateH s b vs with
      | some s2 => goUpdateH (hSetObj s2 da (oInsert (hGetObj s2 da) k (.ref b))) da rest
      | none => none
    | some (.leaf l) =>
      -- update(<non-dict>, vs) raises unless vs is empty
      if vs.isEmpty then
        goUpdateH (hSetObj s da (oInsert (hGetObj s da) k (.leaf l))) da rest
      else none
    | none =>
      -- d.get(k, {}) creates a fresh dict, which is then merged and stored
      let (b, s1) := allocObj s []
      match goUpdateH s1 b vs with
      | some s2 => goUpdateH (hSetObj s2 da (oInsert (hGetObj s2 da) k (.ref b))) da rest
      | none => none
  | s, da, (k, v) :: rest =>
    goUpdateH (hSetObj s da (oInsert (hGetObj s da) k (.leaf v))) da rest

/-- Python truthiness of a slot value under a heap (`if not current_value`). -/
def pvFalsy (s : HS) : PV → Bool
  | .leaf v => isFalsy v
  | .ref a => (hGetObj s a).isEmpty

/-- `default_tags.get(tag)` where the default view is either a dict address
or the fresh empty dict `{}` (which holds no entries). -/
def dftView (s : HS) (dft : Option Nat) (k : String) : Option PV :=
  match dft with
  | some a => oLookup (hGetObj s a) k
  | none => none

/-- Heap version of the `reset_tags` helper of `reset_tags_to_default`.
`cur` is the current-tags value (normally a dict reference), `dft` the
default dict (`none` models the fresh `{}` used for a missing branch).
Any Python exception collapses to `none`.  The `True` branch stores
`default_tags[tag]` itself — a reference when the default value is a dict —
aliasing the snapshot into the custom tags. -/
def goResetH : HS → List (String × Tags) → PV → Option Nat → Option HS
  | s, [], _, _ => some s
  | s, (k, .map vs) :: rest, cur, dft =>
    match dftView s dft k with
    | some (.leaf _) =>
      -- default value not a mapping: continue
      goResetH s rest cur dft
    | some (.ref b) =>
      match cur with
      | .leaf _ => none
      | .ref ca =>
        match oLookup (hGetObj s ca) k with
        | some cv =>
          match goResetH s vs cv (some b) with
          | some s2 =>
            if pvFalsy s2 cv then
              goResetH (hSetObj s2 ca (oRemove (hGetObj s2 ca) k)) rest (.ref ca) dft
            else goResetH s2 rest (.ref ca) dft
          | none => none
        | none =>
          let (e, s1) := allocObj s []
          let s1b := hSetObj s1 ca (hGetObj s1 ca ++ [(k, .ref e)])
          match goResetH s1b vs (.ref e) (some b) with
          | some s2 =>
            if pvFalsy s2 (.ref e) then
              goResetH (hSetObj s2 ca (oRemove (hGetObj s2 ca) k)) rest (.ref ca) dft
            else goResetH s2 rest (.ref ca) dft
          | none => none
    | none =>
      match cur with
      | .leaf _ => none
      | .ref ca =>
        match oLookup (hGetObj s ca) k with
        | some cv =>
          match goResetH s vs cv none with
          | some s2 =>
            if pvFalsy s2 cv then
              goResetH (hSetObj s2 ca (oRemove (hGetObj s2 ca) k)) rest (.ref ca) dft
            else goResetH s2 rest (.ref ca) dft
          | none => none
        | none =>
          let (e, s1) := allocObj s []
          let s1b := hSetObj s1 ca (hGetObj s1 ca ++ [(k, .ref e)])
          match goResetH s1b vs (.ref e) none with
          | some s2 =>
            if pvFalsy s2 (.ref e) then
              goResetH (hSetObj s2 ca (oRemove (hGetObj s2 ca) k)) rest (.ref ca) dft
            else goResetH s2 rest (.ref ca) dft
          | none => none
  | s, (k, .bool true) :: rest, cur, dft =>
    match cur with
    | .leaf _ => none
    | .ref ca =>
      match dftView s dft k with
      | some dv =>
        -- current_tags[tag] = default_tags[tag]: copies the slot value, so a
        -- dict-valued default is aliased, not copied
        goResetH (hSetObj s ca (oInsert (hGetObj s ca) k dv)) rest (.ref ca) dft
      | none =>
        match oLookup (hGetObj s ca) k with
        | some _ => goResetH (hSetObj s ca (oRemove (hGetObj s ca) k)) rest (.ref ca) dft
        | none => none
  | _, (_, _) :: _, _, _ => none

mutual

/-- Read back the pure tags value of a slot under a heap. -/
def readPV : Nat → HS → PV → Option Tags
  | _, _, .leaf v => some v
  | 0, _, .ref _ => none
  | fuel + 1, s, .ref a =>
    match readObj fuel s (hGetObj s a) with
    | some xs => some (.map xs)
    | none => none
termination_by fuel _ _ => (fuel, 0)

/-- Read back the pure entries of a dict object under a heap. -/
def readObj : Nat → HS → Obj → Option (List (String × Tags))
  | _, _, [] => some []
  | fuel, s, (k, v) :: t =>
    match readPV fuel s v with
    | some tv =>
      match readObj fuel s t with
      | some rest => some ((k, tv) :: rest)
      | none => none
    | none => none
termination_by fuel _ o => (fuel, o.length + 1)

end

/-- The C4 scenario: construct `Field(tags={'a': {'b': 1}})`, read the
default snapshot back, call `reset_tags_to_default(a=True)` and then
`set_tags(a={'b': 3})`, and read the default snapshot back again. -/
def c4Scenario : Option (Tags × Tags) := do
  let f ← mkFieldH 10 [("a", .map [("b", .int 1)])]
  let snapAtInit ← readPV 10 f.hs (.ref f.defaultAddr)
  let s2 ← goResetH f.hs [("a", .bool true)] (.ref f.customAddr) (some f.defaultAddr)
  let s3 ← goUpdateH s2 f.customAddr [("a", .map [("b", .int 3)])]
  let snapAfter ← readPV 10 s3 (.ref f.defaultAddr)
  pure (snapAtInit, snapAfter)

/-- C4 fails on the code: after `Field(tags={'a': {'b': 1}})`,
`reset_tags_to_default(a=True)` aliases the default dict `{'b': 1}` into the
custom tags, and the subsequent `set_tags(a={'b': 3})` mutates that shared
dict in place — the default snapshot itself becomes `{'a': {'b': 3}}`. -/
theorem default_tags_mutation :
    c4Scenario
      = some (.map [("a", .map [("b", .int 1)])], .map [("a", .map [("b", .int 3)])]) := by
  simp [c4Scenario, mkFieldH, allocTags, allocTagsL, allocObj, deepcopyPV, deepcopyObj,
        hGetObj, hGetObj.go, hSetObj, hSetObj.go, oLookup, oInsert, oRemove,
        goResetH, goUpdateH, dftView, pvFalsy, readPV, readObj, isFalsy, Option.bind]

/-- The aliased C2 scenario on the heap model: construct
`Field(tags=(a : (b : 1)))`, call `reset_tags_to_default(a=True)` — the
custom tags now equal the snapshot by value but alias it — read both back,
then run the claimed pair `set_tags(a=(b : 3))`;
`reset_tags_to_default(a=(b : True))` and read the custom tags back. -/
def c2AliasRun : Option (Tags × Tags × Tags) := do
  let f ← mkFieldH 10 [("a", .map [("b", .int 1)])]
  let s2 ← goResetH f.hs [("a", .bool true)] (.ref f.customAddr) (some f.defaultAddr)
  let preCustom ← readPV 10 s2 (.ref f.customAddr)
  let preDefault ← readPV 10 s2 (.ref f.defaultAddr)
  let s3 ← goUpdateH s2 f.customAddr [("a", .map [("b", .int 3)])]
  let s4 ← goResetH s3 (toSelL [("a", .map [("b", .int 3)])])
            (.ref f.customAddr) (some f.defaultAddr)
  let afterCustom ← readPV 10 s4 (.ref f.customAddr)
  pure (preCustom, preDefault, afterCustom)

/-- The unaliased C2 roundtrip on the heap model: from a freshly constructed
field (overlay and snapshot disjoint by `deepcopy`), run `set_tags` then the
matching reset and read back the custom tags and the snapshot. -/
def c2HeapRoundtrip : Option (Tags × Tags) := do
  let f ← mkFieldH 10 [("v", .map [("x", .str "1")])]
  let s2 ← goUpdateH f.hs f.customAddr [("v", .map [("x", .str "3")])]
  let s3 ← goResetH s2 (toSelL [("v", .map [("x", .str "3")])])
            (.ref f.customAddr) (some f.defaultAddr)
  let cur ← readPV 10 s3 (.ref f.customAddr)
  let dflt ← readPV 10 s3 (.ref f.defaultAddr)
  pure (cur, dflt)

/-- Counterexample for C2 as frozen, in three scenarios, each forcing one
hypothesis of the amendment.  First: when the custom tags differ from the
snapshot before `set_tags` (custom `x = 2` vs default `x = 1`, both states
reachable through `set_tags`), the reset restores the default, not the
pre-`set_tags` structure.  Second: when the snapshot holds an empty nested
dict, even tags equal to the snapshot are not restored — the emptied branch
is deleted.  Third (heap model): when the custom tags equal the snapshot by
value but alias it (the state left by a previous `reset_tags_to_default`,
fields.py line 247), `set_tags(a=(b : 3))` mutates the snapshot through the
shared dict and the reset yields `(a : (b : 3))`, not the pre-`set_tags`
value `(a : (b : 1))` — so by-value equality with the snapshot is not a
sufficient precondition either; the overlay must also share no structure
with the snapshot. -/
theorem set_reset_roundtrip_cex :
    (setTags [("v", .map [("x", .int 1)])] [("v", .map [("x", .int 2)])]
      = .ok [("v", .map [("x", .int 2)])])
    ∧ (setTags [("v", .map [("x", .int 2)])] [("v", .map [("x", .int 3)])]
      = .ok [("v", .map [("x", .int 3)])])
    ∧ resetTagsToDefault (toSelL [("v", .map [("x", .int 3)])])
        [("v", .map [("x", .int 3)])] [("v", .map [("x", .int 1)])]
      ≠ .ok (.map [("v", .map [("x", .int 2)])])
    ∧ (setTags [("a", .map [])] [("a", .map [("z", .int 9)])]
      = .ok [("a", .map [("z", .int 9)])])
    ∧ resetTagsToDefault (toSelL [("a", .map [("z", .int 9)])])
        [("a", .map [("z", .int 9)])] [("a", .map [])]
      ≠ .ok (.map [("a", .map [])])
    ∧ c2AliasRun
      = some (.map [("a", .map [("b", .int 1)])],
              .map [("a", .map [("b", .int 1)])],
              .map [("a", .map [("b", .int 3)])]) := by
  refine ⟨?_, ?_, ?_, ?_, ?_, ?_⟩
  · simp [setTags, goUpdate, lookupD, insertD]
  · simp [setTags, goUpdate, lookupD, insertD]
  · simp [resetTagsToDefault, goReset, toSelL, toSelT, lookupD, insertD, removeD, isFalsy]
  · simp [setTags, goUpdate, lookupD, insertD]
  · simp [resetTagsToDefault, goReset, toSelL, toSelT, lookupD, insertD, removeD, isFalsy]
  · simp [c2AliasRun, mkFieldH, allocTags, allocTagsL, allocObj, deepcopyPV, deepcopyObj,
          hGetObj, hGetObj.go, hSetObj, hSetObj.go, oLookup, oInsert, oRemove,
          goResetH, goUpdateH, dftView, pvFalsy, readPV, readObj, isFalsy, toSelL,
          toSelT, Option.bind]

/-- Witness for C2: a concrete construction-fresh field whose custom tags
equal its snapshot and (by `deepcopy`) share no structure with it;
overriding a nested leaf and resetting it restores the snapshot, and the
same pair replayed on the heap model agrees — the custom tags read back to
the original value with the snapshot intact. -/
theorem set_reset_roundtrip_amended_witness :
    (resetTagsToDefault (toSelL [("v", .map [("x", .str "3")])])
        [("v", .map [("x", .str "3")])] [("v", .map [("x", .str "1")])]
      = .ok (.map [("v", .map [("x", .str "1")])]))
    ∧ c2HeapRoundtrip
      = some (.map [("v", .map [("x", .str "1")])],
              .map [("v", .map [("x", .str "1")])]) := by
  refine ⟨?_, ?_⟩
  · exact set_reset_roundtrip_amended
      [("v", .map [("x", .str "3")])]
      [("v", .map [("x", .str "1")])]
      [("v", .map [("x", .str "1")])]
      [("v", .map [("x", .str "3")])]
      (by simp [wfD, wfT, lookupD])
      rfl
      (by simp [neD, neT])
      (by simp [setTags, goUpdate, lookupD, insertD])
  · simp [c2HeapRoundtrip, mkFieldH, allocTags, allocTagsL, allocObj, deepcopyPV,
          deepcopyObj, hGetObj, hGetObj.go, hSetObj, hSetObj.go, oLookup, oInsert,
          oRemove, goResetH, goUpdateH, dftView, pvFalsy, readPV, readObj, isFalsy,
          toSelL, toSelT, Option.bind]

/-!
## Python runtime values and the `prepare_value` coercions

`IntegerField.prepare_value` (fields.py 287-288) is `int(value)`;
`IntegerArrayNominalField.prepare_value` (615-616) is
`list([int(x) for x in value])`.  Python 2 `int` accepts an optionally
signed decimal digit string (surrounding whitespace allowed) and truncates
floats toward zero; `int("3.0")` raises `ValueError`.
-/

/-- Python runtime values flowing through `prepare_value` / `to_stream`.
Floats are modelled as rationals; the embedded coercions are exercised only
on values where float rounding cannot change the result. -/
inductive PyVal where
  | pnone
  | pbool (b : Bool)
  | pint (n : Int)
  | pfloat (q : Rat)
  | pstr (s : String)
  | plist (xs : List PyVal)
deriving Repr

/-- Digit-string value, `none` when empty or containing a non-digit. -/
def digitsVal (ds : List Char) : Option Int :=
  if ds.isEmpty then none
  else if ds.all Char.isDigit then
    some (ds.foldl (fun acc c => acc * 10 + ((c.toNat : Int) - 48)) 0)
  else none

/-- Python `int(<string>)`: optional surrounding whitespace, optional sign,
decimal digits; anything else (including `"3.0"`) is a `ValueError`. -/
def parseIntLit (s : String) : Option Int :=
  let cs := s.toList.dropWhile Char.isWhitespace
  let cs := (cs.reverse.dropWhile Char.isWhitespace).reverse
  match cs with
  | '+' :: ds => digitsVal ds
  | '-' :: ds => (digitsVal ds).map (fun n => -n)
  | ds => digitsVal ds

/-- Python `int(value)`. -/
def pyInt : PyVal → Except Err PyVal
  | .pint n => .ok (.pint n)
  | .pbool b => .ok (.pint (if b then 1 else 0))
  | .pfloat q => .ok (.pint (q.num / (q.den : Int)))
  | .pstr s =>
    match parseIntLit s with
    | some n => .ok (.pint n)
    | none => .error (.valueError "invalid literal for int")
  | _ => .error .typeError

/-- `[int(x) for x in xs]`. -/
def pyIntList : List PyVal → Except Err (List PyVal)
  | [] => .ok []
  | x :: rest =>
    match pyInt x with
    | .ok v =>
      match pyIntList rest with
      | .ok tl => .ok (v :: tl)
      | .error e => .error e
    | .error e => .error e

/-- The field classes whose behavior the claims exercise (the remaining typed
variants only change `value_type` / downsamplers in the same pattern). -/
inductive FieldClass where
  | base
  | integer
  | nominal
  | integerNominal
  | integerArrayNominal
deriving DecidableEq, Repr

/-- `prepare_value` dispatch: identity on the base `Field` and on
`NominalField`; `int(value)` for `IntegerField` / `IntegerNominalField`;
element-wise `int` for `IntegerArrayNominalField` (iterating a string takes
its characters). -/
def prepareValue : FieldClass → PyVal → Except Err PyVal
  | .base, v => .ok v
  | .nominal, v => .ok v
  | .integer, v => pyInt v
  | .integerNominal, v => pyInt v
  | .integerArrayNominal, .plist xs =>
    match pyIntList xs with
    | .ok ys => .ok (.plist ys)
    | .error e => .error e
  | .integerArrayNominal, .pstr s =>
    match pyIntList (s.toList.map (fun c => .pstr (String.mk [c]))) with
    | .ok ys => .ok (.plist ys)
    | .error e => .error e
  | .integerArrayNominal, _ => .error .typeError

/-- C7 counterexample: an integer-typed field's `prepare_value` applied to
the textual value "3.0" raises `ValueError` (Python `int("3.0")`), it does
not return 3. -/
theorem prepare_value_coercion_cex :
    prepareValue .integer (.pstr "3.0") = .error (.valueError "invalid literal for int") := by
  simp [prepareValue, pyInt, parseIntLit, digitsVal]

/-- C7, amended: an integer-typed field coerces the textual value "3" and
the float value 3.9 to the integer 3 (but raises on "3.0"); an
integer-array-nominal field coerces [1.5, 2.5] to [1, 2]. -/
theorem prepare_value_coercion :
    prepareValue .integer (.pstr "3") = .ok (.pint 3)
    ∧ prepareValue .integer (.pfloat (3.9 : Rat)) = .ok (.pint 3)
    ∧ prepareValue .integerArrayNominal (.plist [.pfloat (1.5 : Rat), .pfloat (2.5 : Rat)])
        = .ok (.plist [.pint 1, .pint 2]) := by
  refine ⟨?_, ?_, ?_⟩
  · simp [prepareValue, pyInt, parseIntLit, digitsVal]
  · norm_num [prepareValue, pyInt]
  · norm_num [prepareValue, pyInt, pyIntList]

/-!
## Descriptors, fields and the environment

Descriptors are the external abstraction of spec section 6: they expose the
wrapped domain object (a model id), query/descriptive tags, the highest
granularity, named cross-object model references and a field-name lookup.
The descriptor pool (`pool.get_descriptor`) and callables are provided by an
environment.
-/

/-- Generic assoc-list lookup for `String`-keyed tables. -/
def lookupN {α : Type} : List (String × α) → String → Option α
  | [], _ => none
  | (k, v) :: t, key => if k = key then some v else lookupN t key

/-- A streams descriptor (consumed interface). -/
structure DescData where
  model : Nat
  queryTags : Dict
  streamTags : Dict
  highestGranularity : Nat
  modelRefs : List (String × Nat)
  fields : List (String × Nat)
deriving Repr

/-- How a field's stream is materialized: directly, derived from located
source fields, or as a dynamic sum over registered (field, descriptor)
pairs. -/
inductive FieldKind where
  | plain
  | derived (sources : List (Option String × String)) (op : String) (opArgs : Dict)
  | dynamicSum (sources : List (Nat × DescData))
deriving Repr

/-- The schema-time state of one field. `name` is the value assigned by the
owning descriptor before first use. -/
structure FieldData where
  name : String
  -- `self.attribute`: absent, an attribute name, or a callable (by id)
  srcAttr : Option (String ⊕ Nat)
  custom_tags : Dict
  value_downsamplers : Option (List String)
  value_type : String
  cls : FieldClass
  kind : FieldKind
deriving Repr

/-- The ambient environment: the field table, the descriptor pool, transform
callables, model attributes and callable source attributes. -/
structure Env where
  fields : Nat → FieldData
  pool : Nat → Option DescData
  transformFns : Nat → Nat → Dict → Tags
  modelAttrs : Nat → String → Option PyVal
  attrFns : Nat → Nat → PyVal

/-!
## `TagReference.resolve` (fields.py 35-56)
-/

/-- Python `str.split(sep)` for a one-character separator: split into the
(possibly empty) chunks between occurrences. -/
def splitOnChar (sep : Char) : List Char → List (List Char)
  | [] => [[]]
  | c :: rest =>
    if c = sep then [] :: splitOnChar sep rest
    else
      match splitOnChar sep rest with
      | h :: t => (c :: h) :: t
      | [] => [[c]]

/-- Splitting never yields an empty chunk list. -/
theorem splitOnChar_ne_nil (sep : Char) (cs : List Char) : splitOnChar sep cs ≠ [] := by
  cases cs with
  | nil => simp [splitOnChar]
  | cons c rest =>
    by_cases h : c = sep
    · simp [splitOnChar, h]
    · simp only [splitOnChar, if_neg h]
      cases hs : splitOnChar sep rest with
      | nil => simp
      | cons a t => simp

/-- The number of chunks is one more than the number of separators. -/
theorem splitOnChar_length (sep : Char) (cs : List Char) :
    (splitOnChar sep cs).length = cs.count sep + 1 := by
  induction cs with
  | nil => simp [splitOnChar]
  | cons c rest ih =>
    by_cases h : c = sep
    · subst h; simp [splitOnChar, List.count_cons, ih]
    · simp only [splitOnChar, if_neg h]
      cases hs : splitOnChar sep rest with
      | nil => exact absurd hs (splitOnChar_ne_nil sep rest)
      | cons a t =>
        rw [hs] at ih
        simp only [List.length_cons] at ih ⊢
        simp [List.count_cons, h, ih]

/-- `reduce(lambda x, y: x[y], ref.split('.'), descriptor.get_stream_tags())`:
follow a dotted path through nested tag dicts. -/
def followPath (tags : Tags) (path : String) : Except Err Tags :=
  go ((splitOnChar '.' path.toList).map String.mk) tags
where go : List String → Tags → Except Err Tags
  | [], t => .ok t
  | p :: rest, .map xs =>
    match lookupD xs p with
    | some v => go rest v
    | none => .error .keyError
  | _ :: _, _ => .error .typeError

/-- The `tag_values` dict comprehension: one entry per referenced path,
keyed by the path string (duplicate paths collapse onto one dict key). -/
def buildTagValues (streamTags : Tags) : List String → Dict → Except Err Dict
  | [], acc => .ok acc
  | p :: rest, acc =>
    match followPath streamTags p with
    | .ok v => buildTagValues streamTags rest (insertD acc p v)
    | .error e => .error e

/-- Python `str()` of a tag value, as used by `%` template substitution; the
repr of containers is abstracted. -/
def pyStrT : Tags → String
  | .str s => s
  | .int n => toString n
  | .bool b => if b then "True" else "False"
  | .null => "None"
  | .list _ => "[container]"
  | .map _ => "[container]"
  | .tagref _ _ => "[tagref]"

mutual

/-- Python `template % tag_values` for the forms the engine uses:
`%(name)s` substitution and `%%`; other conversions are modelled as format
errors, a missing key raises `KeyError`. -/
def renderTemplate : List Char → Dict → Except Err (List Char)
  | [], _ => .ok []
  | '%' :: rest, tv =>
    match rest with
    | '%' :: rest2 =>
      match renderTemplate rest2 tv with
      | .ok t => .ok ('%' :: t)
      | .error e => .error e
    | '(' :: rest2 => renderKey rest2 [] tv
    | _ => .error (.valueError "unsupported format character")
  | c :: rest, tv =>
    match renderTemplate rest tv with
    | .ok t => .ok (c :: t)
    | .error e => .error e
termination_by cs _ => cs.length

/-- Scan a `%(name)s` key and substitute its value. -/
def renderKey : List Char → List Char → Dict → Except Err (List Char)
  | [], _, _ => .error (.valueError "incomplete format key")
  | ')' :: rest, acc, tv =>
    match rest with
    | 's' :: rest2 =>
      match lookupD tv (String.mk acc.reverse) with
      | some v =>
        match renderTemplate rest2 tv with
        | .ok t => .ok ((pyStrT v).toList ++ t)
        | .error e => .error e
      | none => .error .keyError
    | _ => .error (.valueError "unsupported format character")
  | c :: rest, acc, tv => renderKey rest (c :: acc) tv
termination_by cs _ _ => cs.length

end

/-- `TagReference.resolve(descriptor)`: resolve every referenced path into
`tag_values`, then dispatch on the transform — callable, string template, or
(with no transform) the single resolved value; several distinct resolved
paths without a transform raise `ValueError`. -/
def resolveRef (env : Env) (desc : DescData) (paths : List String) (tr : TransformRef) :
    Except Err Tags :=
  match buildTagValues (.map desc.streamTags) paths [] with
  | .error e => .error e
  | .ok tv =>
    match tr with
    | .call fnId => .ok (env.transformFns fnId desc.model tv)
    | .template s =>
      match renderTemplate s.toList tv with
      | .ok cs => .ok (.str (String.mk cs))
      | .error e => .error e
    | .noTransform =>
      match tv with
      | [(_, v)] => .ok v
      | _ => .error (.valueError "Multiple tags specified without transform callable!")

/-- A minimal concrete environment for witnesses. -/
def envEmpty : Env :=
  ⟨fun _ => ⟨"f", none, [], none, "numeric", .base, .plain⟩,
   fun _ => none, fun _ _ _ => .null, fun _ _ => none, fun _ _ => .pnone⟩

/-- C5, amended: resolving a Tag Reference splits three ways — with two or
more *distinct* tag paths and no transform it raises the configuration
`ValueError`; with a string-template transform it returns the template
rendered over the resolved values keyed by path; with exactly one path and
no transform it returns that path's resolved value unchanged. -/
theorem tagref_resolve_cases (env : Env) (desc : DescData) (paths : List String) (tv : Dict)
    (htv : buildTagValues (.map desc.streamTags) paths [] = .ok tv) :
    (2 ≤ tv.length →
      resolveRef env desc paths .noTransform
        = .error (.valueError "Multiple tags specified without transform callable!"))
    ∧ (∀ s : String,
        resolveRef env desc paths (.template s)
          = match renderTemplate s.toList tv with
            | .ok cs => .ok (.str (String.mk cs))
            | .error e => .error e)
    ∧ (∀ p, paths = [p] →
        ∃ v, followPath (.map desc.streamTags) p = .ok v
          ∧ resolveRef env desc paths .noTransform = .ok v) := by
  refine ⟨?_, ?_, ?_⟩
  · intro h2
    simp only [resolveRef, htv]
    match tv, h2 with
    | (k1, v1) :: (k2, v2) :: tl, _ => rfl
  · intro s
    simp only [resolveRef, htv]
  · intro p hp
    subst hp
    cases hf : followPath (.map desc.streamTags) p with
    | error e =>
      simp only [buildTagValues, hf] at htv
      cases htv
    | ok v =>
      have hb2 : buildTagValues (.map desc.streamTags) [p] [] = .ok [(p, v)] := by
        simp only [buildTagValues, hf, insertD]
      refine ⟨v, rfl, ?_⟩
      simp only [resolveRef, hb2]

/-- C5 counterexample: a reference holding two tag paths and no transform
does not raise when the paths are equal — the `tag_values` dict collapses
them to one entry and the single resolved value is returned. -/
theorem tagref_resolve_cex :
    resolveRef envEmpty ⟨0, [], [("a", .int 7)], 0, [], []⟩ ["a", "a"] .noTransform
      = .ok (.int 7) := by
  simp [resolveRef, buildTagValues, followPath, followPath.go, splitOnChar,
        lookupD, insertD]

/-- Witness for C5 exercising all three branches on concrete references. -/
theorem tagref_resolve_cases_witness :
    (resolveRef envEmpty ⟨0, [], [("a", .int 7), ("b", .str "x")], 0, [], []⟩
        ["a", "b"] .noTransform
      = .error (.valueError "Multiple tags specified without transform callable!"))
    ∧ (resolveRef envEmpty ⟨0, [], [("a", .int 7), ("b", .str "x")], 0, [], []⟩
        ["b"] (.template "v=%(b)s")
      = .ok (.str "v=x"))
    ∧ (resolveRef envEmpty ⟨0, [], [("a", .int 7), ("b", .str "x")], 0, [], []⟩
        ["a"] .noTransform
      = .ok (.int 7)) := by
  have h := tagref_resolve_cases envEmpty ⟨0, [], [("a", .int 7), ("b", .str "x")], 0, [], []⟩
    ["a", "b"] [("a", .int 7), ("b", .str "x")]
    (by simp [buildTagValues, followPath, followPath.go, splitOnChar, lookupD, insertD])
  have h1 := tagref_resolve_cases envEmpty ⟨0, [], [("a", .int 7), ("b", .str "x")], 0, [], []⟩
    ["b"] [("b", .str "x")]
    (by simp [buildTagValues, followPath, followPath.go, splitOnChar, lookupD, insertD])
  have h2 := tagref_resolve_cases envEmpty ⟨0, [], [("a", .int 7), ("b", .str "x")], 0, [], []⟩
    ["a"] [("a", .int 7)]
    (by simp [buildTagValues, followPath, followPath.go, splitOnChar, lookupD, insertD])
  refine ⟨h.1 (by simp), ?_, ?_⟩
  · rw [h1.2.1 "v=%(b)s"]
    simp [renderTemplate, renderKey, pyStrT, lookupD]
  · obtain ⟨v, hv, hres⟩ := h2.2.2 "a" rfl
    simp [followPath, followPath.go, splitOnChar, lookupD] at hv
    rw [hres, ← hv]

/-!
## Tag processing (`process_tags`, fields.py 110-172) and the store model
-/

mutual

/-- `Field._process_tag_references` (fields.py 137-160): walk the tag
structure, resolving every embedded `TagReference`; dict values and list
elements are walked, other values pass through unchanged. -/
def processTagRefs (env : Env) (desc : DescData) : Tags → Except Err Tags
  | .map xs =>
    match processTagRefsL env desc xs with
    | .ok ys => .ok (.map ys)
    | .error e => .error e
  | .list xs =>
    match processTagRefsLL env desc xs with
    | .ok ys => .ok (.list ys)
    | .error e => .error e
  | .tagref ps tr => resolveRef env desc ps tr
  | t => .ok t

/-- Entry list of a dict under `_process_tag_references`. -/
def processTagRefsL (env : Env) (desc : DescData) :
    List (String × Tags) → Except Err (List (String × Tags))
  | [] => .ok []
  | (k, v) :: t =>
    match processTagRefs env desc v with
    | .ok v2 =>
      match processTagRefsL env desc t with
      | .ok t2 => .ok ((k, v2) :: t2)
      | .error e => .error e
    | .error e => .error e

/-- Element list of a list under `_process_tag_references`. -/
def processTagRefsLL (env : Env) (desc : DescData) :
    List Tags → Except Err (List Tags)
  | [] => .ok []
  | v :: t =>
    match processTagRefs env desc v with
    | .ok v2 =>
      match processTagRefsLL env desc t with
      | .ok t2 => .ok (v2 :: t2)
      | .error e => .error e
    | .error e => .error e

end

/-- `dict.update`: insert every pair of `u` into `d` in order. -/
def dictUpdate (d u : Dict) : Dict :=
  match u with
  | [] => d
  | (k, v) :: rest => dictUpdate (insertD d k v) rest

/-- Modelled from the spec: `nodewatcher.utils.datastructures.merge_dict` is
not under `src/`.  Spec section 4.2: deep-merge the second dict on top of the
first — nested mappings merge recursively, any other value replaces the
entry; existing keys keep their position, new keys are appended. -/
def merge_dict : Dict → Dict → Dict
  | d, [] => d
  | d, (k, .map vs) :: rest =>
    match lookupD d k with
    | some (.map ds) => merge_dict (insertD d k (.map (merge_dict ds vs))) rest
    | _ => merge_dict (insertD d k (.map vs)) rest
  | d, (k, v) :: rest => merge_dict (insertD d k v) rest

/-- `Field.prepare_tags` (110-119) with the `IntegerField` override
(290-293): `{'name': self.name}` updated with the custom tags, plus the
class-specific type tag. -/
def prepare_tags (f : FieldData) : Dict :=
  let combined := dictUpdate [("name", .str f.name)] f.custom_tags
  match f.cls with
  | .integer => dictUpdate combined [("type", .str "integer")]
  | _ => combined

/-- `Field.prepare_query_tags` (121-128). -/
def prepare_query_tags (f : FieldData) : Dict :=
  [("name", .str f.name)]

/-- `Field.process_tags` (162-172): descriptor query tags updated with the
field's query tags; descriptor stream tags deep-merged with the field's tags
and tag references resolved. -/
def process_tags (env : Env) (f : FieldData) (desc : DescData) :
    Except Err (Dict × Tags) :=
  let query_tags := dictUpdate desc.queryTags (prepare_query_tags f)
  let tags := merge_dict desc.streamTags (prepare_tags f)
  match processTagRefs env desc (.map tags) with
  | .ok tags2 => .ok (query_tags, tags2)
  | .error e => .error e

/-- A store response to one call: a stream id, the distinguished
inconsistent-configuration condition, or an I/O failure. -/
inductive Resp where
  | sid (n : Nat)
  | inconsistent
  | err
deriving DecidableEq, Repr

/-- The arguments of one `ensure_stream` store call. -/
structure EnsureArgs where
  queryTags : Dict
  tags : Tags
  downsamplers : Option (List String)
  granularity : Nat
  deriveFrom : Option (List (Option (Option String) × Option Nat))
  deriveOp : Option String
  deriveArgs : Option Dict
  deriveBackprocess : Option Bool
  valueType : String
deriving Repr

/-- One call issued to the datastream store. -/
inductive StoreCall where
  | ensure (a : EnsureArgs)
  | append (sid : Option Nat) (v : PyVal) (ts : Option Nat)
  | deleteStreams (qt : Dict)
deriving Repr

/-- Interpreter state: the index of the next store call (feeding the oracle)
and the trace of calls issued so far. -/
abbrev St := Nat × List StoreCall

/-- Issue one store call: consult the oracle at the current index, extend the
trace. -/
def callStore (oracle : Nat → Resp) (c : StoreCall) (st : St) : Resp × St :=
  (oracle st.1, (st.1 + 1, st.2 ++ [c]))

/-- Whether a store call is a `delete_streams`. -/
def isDeleteCall : StoreCall → Bool
  | .deleteStreams _ => true
  | _ => false

/-- `Field.ensure_stream` (174-187): process tags, then one idempotent
ensure-stream request. -/
def plainEnsure (env : Env) (oracle : Nat → Resp) (f : FieldData) (desc : DescData) (st : St) :
    Except Err (Option Nat) × St :=
  match process_tags env f desc with
  | .error e => (.error e, st)
  | .ok (qt, tags) =>
    let (resp, st2) := callStore oracle
      (.ensure ⟨qt, tags, f.value_downsamplers, desc.highestGranularity,
                none, none, none, none, f.value_type⟩) st
    match resp with
    | .sid n => (.ok (some n), st2)
    | .inconsistent => (.error .inconsistentStreamConfiguration, st2)
    | .err => (.error .storeError, st2)

/-- Model resolution for a derived source locator (fields.py 392-395): an
empty reference keeps the current descriptor's model, otherwise
`descriptor.resolve_model_reference(name)` is consulted. -/
def resolveModelRef (desc : DescData) (mref : String) : Except Err Nat :=
  if mref = "" then .ok desc.model
  else
    match lookupN desc.modelRefs mref with
    | some m => .ok m
    | none => .error .keyError

/-- The source-stream loop of `DerivedField.ensure_stream` (389-404): split
each locator at `#`, resolve the model reference, fetch the descriptor from
the pool, look the field up by name — raising `ImproperlyConfigured` naming
the locator when absent — and ensure the source field's stream. -/
def derivedSources
    (ens : FieldData → DescData → St → Except Err (Option Nat) × St)
    (env : Env) (desc : DescData) :
    List (Option String × String) → St →
      Except Err (List (Option String × Option Nat)) × St
  | [], st => (.ok [], st)
  | (nm, loc) :: rest, st =>
    match splitOnChar '#' loc.toList with
    | [mrefCs, fnameCs] =>
      let fname := String.mk fnameCs
      match resolveModelRef desc (String.mk mrefCs) with
      | .error e => (.error e, st)
      | .ok mdl =>
        match env.pool mdl with
        | none => (.error .keyError, st)
        | some mdesc =>
          match lookupN mdesc.fields fname with
          | none =>
            (.error (.improperlyConfigured
              ("Datastream field \x27" ++ loc ++ "\x27 not found!")), st)
          | some sfid =>
            match ens (env.fields sfid) mdesc st with
            | (.ok sidOpt, st2) =>
              match derivedSources ens env desc rest st2 with
              | (.ok tl, st3) => (.ok ((nm, sidOpt) :: tl), st3)
              | (.error e, st3) => (.error e, st3)
            | (.error e, st2) => (.error e, st2)
    | _ =>
      -- `model_reference, field = field_ref['field'].split('#')` fails to
      -- unpack unless the locator holds exactly one separator
      (.error (.valueError "unpack"), st)

/-- The source-stream loop of `DynamicSumField.ensure_stream` (515-520):
ensure every registered source field against its own descriptor. -/
def sumSources
    (ens : FieldData → DescData → St → Except Err (Option Nat) × St)
    (env : Env) :
    List (Nat × DescData) → St → Except Err (List (Option Nat)) × St
  | [], st => (.ok [], st)
  | (fid, sdesc) :: rest, st =>
    match ens (env.fields fid) sdesc st with
    | (.ok sid, st2) =>
      match sumSources ens env rest st2 with
      | (.ok tl, st3) => (.ok (sid :: tl), st3)
      | (.error e, st3) => (.error e, st3)
    | (.error e, st2) => (.error e, st2)

/-- `ensure_stream` for every field kind: the base `Field` (174-187),
`DerivedField` (380-419), and `DynamicSumField` (506-555) with its
delete-and-recreate reconciliation of the inconsistent-configuration
condition, suppressing backprocessing on the recreate.  The fuel bounds the
source-field recursion depth. -/
def ensureStreamF (env : Env) (oracle : Nat → Resp) :
    Nat → FieldData → DescData → St → Except Err (Option Nat) × St
  | 0, _, _, st => (.error .fuelOut, st)
  | fuel + 1, f, desc, st =>
    match f.kind with
    | .plain => plainEnsure env oracle f desc st
    | .derived srcs op args =>
      match derivedSources (fun sf sd stx => ensureStreamF env oracle fuel sf sd stx)
          env desc srcs st with
      | (.error e, st2) => (.error e, st2)
      | (.ok streams, st2) =>
        match process_tags env f desc with
        | .error e => (.error e, st2)
        | .ok (qt, tags) =>
          let (resp, st3) := callStore oracle
            (.ensure ⟨qt, tags, f.value_downsamplers, desc.highestGranularity,
                      some (streams.map (fun p => (some p.1, p.2))),
                      some op, some args, none, f.value_type⟩) st2
          match resp with
          | .sid n => (.ok (some n), st3)
          | .inconsistent => (.error .inconsistentStreamConfiguration, st3)
          | .err => (.error .storeError, st3)
    | .dynamicSum srcs =>
      match sumSources (fun sf sd stx => ensureStreamF env oracle fuel sf sd stx)
          env srcs st with
      | (.error e, st2) => (.error e, st2)
      | (.ok streams, st2) =>
        if streams.isEmpty then (.ok none, st2)
        else
          match process_tags env f desc with
          | .error e => (.error e, st2)
          | .ok (qt, tags) =>
            let (resp, st3) := callStore oracle
              (.ensure ⟨qt, tags, f.value_downsamplers, desc.highestGranularity,
                        some (streams.map (fun s => ((none : Option (Option String)), s))),
                        some "sum", some [], none, f.value_type⟩) st2
            match resp with
            | .sid n => (.ok (some n), st3)
            | .err => (.error .storeError, st3)
            | .inconsistent =>
              -- InconsistentStreamConfiguration: drop the existing stream
              -- under this query-tag identity and re-create it without
              -- backprocessing
              let (dresp, st4) := callStore oracle (.deleteStreams qt) st3
              match dresp with
              | .err => (.error .storeError, st4)
              | _ =>
                let (resp2, st5) := callStore oracle
                  (.ensure ⟨qt, tags, f.value_downsamplers, desc.highestGranularity,
                            some (streams.map (fun s => ((none : Option (Option String)), s))),
                            some "sum", some [], some false, f.value_type⟩) st4
                match resp2 with
                | .sid m => (.ok (some m), st5)
                | .inconsistent => (.error .inconsistentStreamConfiguration, st5)
                | .err => (.error .storeError, st5)

/-- The source-value resolution of `Field.to_stream` (198-202):
`attribute = self.name if self.attribute is None else self.attribute`, then
either call it or read it off the model. -/
def getSourceValue (env : Env) (f : FieldData) (desc : DescData) : Except Err PyVal :=
  match f.srcAttr with
  | none =>
    match env.modelAttrs desc.model f.name with
    | some v => .ok v
    | none => .error .attributeError
  | some (.inl a) =>
    match env.modelAttrs desc.model a with
    | some v => .ok v
    | none => .error .attributeError
  | some (.inr fn) => .ok (env.attrFns fn desc.model)

/-- `to_stream` for every field kind: the base `Field` (189-209) resolves the
source value, ensures the stream, skips on `None`, otherwise appends the
coerced value; `DerivedField.to_stream` (421-430) and
`DynamicSumField.to_stream` (557-566) only ensure the stream. -/
def toStreamF (env : Env) (oracle : Nat → Resp) (fuel : Nat)
    (f : FieldData) (desc : DescData) (ts : Option Nat) (st : St) :
    Except Err Unit × St :=
  match f.kind with
  | .plain =>
    match getSourceValue env f desc with
    | .error e => (.error e, st)
    | .ok value =>
      match ensureStreamF env oracle fuel f desc st with
      | (.error e, st2) => (.error e, st2)
      | (.ok sid, st2) =>
        match value with
        | .pnone => (.ok (), st2)
        | _ =>
          match prepareValue f.cls value with
          | .error e => (.error e, st2)
          | .ok v2 =>
            let (resp, st3) := callStore oracle (.append sid v2 ts) st2
            match resp with
            | .err => (.error .storeError, st3)
            | _ => (.ok (), st3)
  | _ =>
    match ensureStreamF env oracle fuel f desc st with
    | (.error e, st2) => (.error e, st2)
    | (.ok _, st2) => (.ok (), st2)

/-- `Field.__init__` downsampler defaulting (82-95). -/
def defaultDownsamplers (vds : Option (List String)) (vt : String) : Option (List String) :=
  match vds with
  | some d => some d
  | none =>
    if vt = "numeric" then some ["mean", "sum", "min", "max", "std_dev", "count"]
    else if vt = "graph" ∨ vt = "nominal" then some ["count"]
    else none

/-- `Field(attribute=, tags=, value_downsamplers=, value_type=)`; the `name`
argument models the assignment performed by the owning descriptor. -/
def mkField (name : String) (srcAttr : Option (String ⊕ Nat)) (tags : Option Dict)
    (vds : Option (List String)) (vt : String) : FieldData :=
  ⟨name, srcAttr, tags.getD [], defaultDownsamplers vds vt, vt, .base, .plain⟩

/-- `IntegerField(...)`: value type forced to numeric (279-288). -/
def mkIntegerField (name : String) (srcAttr : Option (String ⊕ Nat)) (tags : Option Dict)
    (vds : Option (List String)) : FieldData :=
  ⟨name, srcAttr, tags.getD [], defaultDownsamplers vds "numeric", "numeric",
   .integer, .plain⟩

/-- `IntegerArrayNominalField(...)`: a `NominalField` (592-598) with the
array coercion (610-616). -/
def mkIntegerArrayNominalField (name : String) (srcAttr : Option (String ⊕ Nat))
    (tags : Option Dict) (vds : Option (List String)) : FieldData :=
  ⟨name, srcAttr, tags.getD [], defaultDownsamplers vds "nominal", "nominal",
   .integerArrayNominal, .plain⟩

/-- `DerivedField(streams, op, arguments=, ...)` (365-378). -/
def mkDerivedField (streams : List (Option String × String)) (op : String)
    (arguments : Option Dict) (name : String) (tags : Option Dict)
    (vds : Option (List String)) (vt : String) : FieldData :=
  ⟨name, none, tags.getD [], defaultDownsamplers vds vt, vt, .base,
   .derived streams op (arguments.getD [])⟩

/-- `DynamicSumField(...)` (482-490): empty source list, numeric type. -/
def mkDynamicSumField (name : String) (tags : Option Dict)
    (vds : Option (List String)) : FieldData :=
  ⟨name, none, tags.getD [], defaultDownsamplers vds "numeric", "numeric",
   .base, .dynamicSum []⟩

/-- `DynamicSumField.clear_source_fields` (492-497). -/
def clearSourceFields (f : FieldData) : FieldData :=
  ⟨f.name, f.srcAttr, f.custom_tags, f.value_downsamplers, f.value_type, f.cls,
   .dynamicSum []⟩

/-- `DynamicSumField.add_source_field` (499-504). -/
def addSourceField (f : FieldData) (src : Nat × DescData) : FieldData :=
  match f.kind with
  | .dynamicSum xs =>
    ⟨f.name, f.srcAttr, f.custom_tags, f.value_downsamplers, f.value_type, f.cls,
     .dynamicSum (xs ++ [src])⟩
  | k =>
    ⟨f.name, f.srcAttr, f.custom_tags, f.value_downsamplers, f.value_type, f.cls, k⟩

/-- C3: a Dynamic Aggregate Field with an empty source list returns from
`ensure_stream` without issuing any store call (the `if not streams: return`
on line 522-523), as at construction or after `clear_source_fields`. -/
theorem dynamicSum_empty_noop (env : Env) (oracle : Nat → Resp) (fuel : Nat)
    (f : FieldData) (desc : DescData) (st : St)
    (hkind : f.kind = .dynamicSum []) :
    ensureStreamF env oracle (fuel + 1) f desc st = (.ok none, st) := by
  simp [ensureStreamF, hkind, sumSources]

/-- Witness for C3: a freshly constructed `DynamicSumField` (empty source
list) neither contacts the store nor errors. -/
theorem dynamicSum_empty_noop_witness :
    ensureStreamF envEmpty (fun _ => .sid 0) 1 (mkDynamicSumField "total" none none)
      ⟨0, [], [], 0, [], []⟩ (0, []) = (.ok none, (0, [])) :=
  dynamicSum_empty_noop envEmpty (fun _ => .sid 0) 0
    (mkDynamicSumField "total" none none) ⟨0, [], [], 0, [], []⟩ (0, []) rfl

/-- One successful `sumSources` entry per registered source. -/
theorem sumSources_length
    (ens : FieldData → DescData → St → Except Err (Option Nat) × St) (env : Env) :
    ∀ (srcs : List (Nat × DescData)) (st : St) (streams : List (Option Nat)) (st2 : St),
    sumSources ens env srcs st = (.ok streams, st2) → streams.length = srcs.length := by
  intro srcs
  induction srcs with
  | nil =>
    intro st streams st2 h
    simp only [sumSources, Prod.mk.injEq, Except.ok.injEq] at h
    rw [← h.1]
    rfl
  | cons p rest ih =>
    intro st streams st2 h
    obtain ⟨fid, sdesc⟩ := p
    simp only [sumSources] at h
    cases he : ens (env.fields fid) sdesc st with
    | mk res st3 =>
      rw [he] at h
      cases res with
      | error e => simp at h
      | ok sid =>
        dsimp only at h
        cases hr : sumSources ens env rest st3 with
        | mk res2 st4 =>
          rw [hr] at h
          cases res2 with
          | error e => simp at h
          | ok tl =>
            simp only [Prod.mk.injEq, Except.ok.injEq] at h
            rw [← h.1]
            simp [ih st3 tl st4 hr]

/-- `plainEnsure` appends no `delete_streams` call. -/
theorem plainEnsure_no_delete (env : Env) (oracle : Nat → Resp)
    (f : FieldData) (desc : DescData) (st : St)
    (h : st.2.all (fun c => !isDeleteCall c) = true) :
    ((plainEnsure env oracle f desc st).2.2.all (fun c => !isDeleteCall c)) = true := by
  simp only [plainEnsure]
  cases hpt : process_tags env f desc with
  | error e => exact h
  | ok p =>
    obtain ⟨qt, tags⟩ := p
    simp only [callStore]
    cases oracle st.1 <;>
      (dsimp only; rw [List.all_append, h]; simp [isDeleteCall])

/-- The source loop of a dynamic sum over plain fields appends only
ensure-stream calls, never a delete. -/
theorem sumSources_no_delete (env : Env) (oracle : Nat → Resp) (fuel : Nat) :
    ∀ (srcs : List (Nat × DescData)) (st : St) (streams : List (Option Nat)) (st2 : St),
    (∀ p ∈ srcs, (env.fields p.1).kind = .plain) →
    sumSources (fun sf sd stx => ensureStreamF env oracle fuel sf sd stx) env srcs st
      = (.ok streams, st2) →
    st.2.all (fun c => !isDeleteCall c) = true →
    st2.2.all (fun c => !isDeleteCall c) = true := by
  intro srcs
  induction srcs with
  | nil =>
    intro st streams st2 _ h hall
    simp only [sumSources, Prod.mk.injEq] at h
    rw [← h.2]
    exact hall
  | cons p rest ih =>
    intro st streams st2 hplain h hall
    obtain ⟨fid, sdesc⟩ := p
    simp only [sumSources] at h
    cases hfu : fuel with
    | zero =>
      subst hfu
      simp only [ensureStreamF] at h
      simp at h
    | succ g =>
      subst hfu
      have hk : (env.fields fid).kind = .plain := hplain (fid, sdesc) (List.mem_cons_self _ _)
      cases he : ensureStreamF env oracle (g + 1) (env.fields fid) sdesc st with
      | mk res st3 =>
        rw [he] at h
        have he2 : plainEnsure env oracle (env.fields fid) sdesc st = (res, st3) := by
          rw [← he]
          simp [ensureStreamF, hk]
        cases res with
        | error e => simp at h
        | ok sid =>
          dsimp only at h
          have hall3 : st3.2.all (fun c => !isDeleteCall c) = true := by
            have := plainEnsure_no_delete env oracle (env.fields fid) sdesc st hall
            rw [he2] at this
            exact this
          cases hr : sumSources (fun sf sd stx => ensureStreamF env oracle (g + 1) sf sd stx)
              env rest st3 with
          | mk res2 st4 =>
            rw [hr] at h
            cases res2 with
            | error e => simp at h
            | ok tl =>
              simp only [Prod.mk.injEq] at h
              rw [← h.2]
              exact ih st3 tl st4 (fun q hq => hplain q (List.mem_cons_of_mem _ hq)) hr hall3

/-- C1: for a `DynamicSumField` with a non-empty source list (all sources
plain fields, each successfully ensured), if the store's ensure call raises
the inconsistent-stream-configuration condition then `ensure_stream` issues
exactly one `delete_streams` on the field's query tags followed by exactly
one recreating ensure call that differs from the first only in
`derive_backprocess = False`, and returns the recreated stream's identity;
if the first ensure call succeeds, no delete and no second ensure occur.
The source-ensure prefix of the trace contains no delete call. -/
theorem dynamicSum_reconciliation (env : Env) (oracle : Nat → Resp) (fuel : Nat)
    (f : FieldData) (desc : DescData) (srcs : List (Nat × DescData))
    (n0 : Nat) (streams : List (Option Nat)) (st1 : St)
    (qt : Dict) (tags : Tags) (n m : Nat)
    (hkind : f.kind = .dynamicSum srcs)
    (hsrcs : srcs ≠ [])
    (hplain : ∀ p ∈ srcs, (env.fields p.1).kind = .plain)
    (hsum : sumSources (fun sf sd stx => ensureStreamF env oracle fuel sf sd stx)
              env srcs (n0, []) = (.ok streams, st1))
    (hpt : process_tags env f desc = .ok (qt, tags)) :
    (st1.2.all (fun c => !isDeleteCall c) = true)
    ∧ (oracle st1.1 = .inconsistent → oracle (st1.1 + 1) ≠ .err →
        oracle (st1.1 + 2) = .sid m →
        ensureStreamF env oracle (fuel + 1) f desc (n0, []) =
          (.ok (some m),
           (st1.1 + 3,
            st1.2 ++
              [.ensure ⟨qt, tags, f.value_downsamplers, desc.highestGranularity,
                        some (streams.map (fun s => ((none : Option (Option String)), s))),
                        some "sum", some [], none, f.value_type⟩,
               .deleteStreams qt,
               .ensure ⟨qt, tags, f.value_downsamplers, desc.highestGranularity,
                        some (streams.map (fun s => ((none : Option (Option String)), s))),
                        some "sum", some [], some false, f.value_type⟩])))
    ∧ (oracle st1.1 = .sid n →
        ensureStreamF env oracle (fuel + 1) f desc (n0, []) =
          (.ok (some n),
           (st1.1 + 1,
            st1.2 ++
              [.ensure ⟨qt, tags, f.value_downsamplers, desc.highestGranularity,
                        some (streams.map (fun s => ((none : Option (Option String)), s))),
                        some "sum", some [], none, f.value_type⟩]))) := by
  have hne : streams.isEmpty = false := by
    have hl := sumSources_length _ env srcs (n0, []) streams st1 hsum
    cases streams with
    | nil =>
      cases srcs with
      | nil => exact absurd rfl hsrcs
      | cons a t => simp at hl
    | cons a t => rfl
  refine ⟨?_, ?_, ?_⟩
  · exact sumSources_no_delete env oracle fuel srcs (n0, []) streams st1 hplain hsum (by simp)
  · intro hinc hdel hm
    simp only [ensureStreamF, hkind, hsum]
    simp only [hne, Bool.false_eq_true, if_false, hpt, callStore, hinc]
    cases hdresp : oracle (st1.1 + 1) with
    | err => exact absurd hdresp hdel
    | sid k =>
      rw [hm]
      simp [List.append_assoc]
    | inconsistent =>
      rw [hm]
      simp [List.append_assoc]
  · intro hok
    simp only [ensureStreamF, hkind, hsum]
    simp only [hne, Bool.false_eq_true, if_false, hpt, callStore, hok]

/-- Default numeric downsamplers (fields.py 83-91). -/
def dsNumeric : List String := ["mean", "sum", "min", "max", "std_dev", "count"]

/-- Concrete source descriptor for the C1 witness. -/
def c1SrcDesc : DescData := ⟨0, [], [], 0, [], []⟩

/-- Concrete destination descriptor for the C1 witness. -/
def c1Desc : DescData := ⟨1, [], [], 300, [], []⟩

/-- Concrete environment for the C1 witness: every field id resolves to one
plain numeric field named `src`. -/
def c1Env : Env :=
  ⟨fun _ => mkField "src" none none none "numeric", fun _ => none,
   fun _ _ _ => .null, fun _ _ => none, fun _ _ => .pnone⟩

/-- A `DynamicSumField` with one registered plain source field. -/
def c1Field : FieldData :=
  addSourceField (mkDynamicSumField "total" none none) (0, c1SrcDesc)

/-- Store script for the C1 witness: the source ensure yields stream 5, the
sum ensure reports an inconsistent configuration, the delete succeeds, the
recreate yields stream 9. -/
def c1Oracle : Nat → Resp := fun i =>
  if i = 0 then .sid 5 else if i = 1 then .inconsistent else if i = 2 then .sid 0 else .sid 9

/-- The ensure call issued for the C1 witness's source field. -/
def c1SrcCall : StoreCall :=
  .ensure ⟨[("name", .str "src")], .map [("name", .str "src")], some dsNumeric, 0,
           none, none, none, none, "numeric"⟩

/-- Witness for C1: the concrete reconciliation run — source ensure, sum
ensure hitting the inconsistency, one delete on the sum's query tags, one
recreate with `derive_backprocess = False`, returning the recreated id 9. -/
theorem dynamicSum_reconciliation_witness :
    ensureStreamF c1Env c1Oracle 2 c1Field c1Desc (0, []) =
      (.ok (some 9),
       (4, [c1SrcCall,
            .ensure ⟨[("name", .str "total")], .map [("name", .str "total")], some dsNumeric,
                     300, some [(none, some 5)], some "sum", some [], none, "numeric"⟩,
            .deleteStreams [("name", .str "total")],
            .ensure ⟨[("name", .str "total")], .map [("name", .str "total")], some dsNumeric,
                     300, some [(none, some 5)], some "sum", some [], some false, "numeric"⟩])) := by
  have h := dynamicSum_reconciliation c1Env c1Oracle 1 c1Field c1Desc [(0, c1SrcDesc)] 0
    [some 5] (1, [c1SrcCall])
    [("name", .str "total")] (.map [("name", .str "total")]) 0 9
    rfl
    (by simp)
    (fun p _ => rfl)
    (by simp [sumSources, ensureStreamF, plainEnsure, process_tags, processTagRefs,
              processTagRefsL, prepare_tags, prepare_query_tags, dictUpdate, merge_dict,
              insertD, lookupD, callStore, c1Env, c1Oracle, c1SrcDesc, mkField,
              defaultDownsamplers, c1SrcCall, dsNumeric])
    (by simp [process_tags, processTagRefs, processTagRefsL, prepare_tags,
              prepare_query_tags, dictUpdate, merge_dict, insertD, lookupD, c1Env,
              c1Field, c1Desc, mkDynamicSumField, addSourceField, defaultDownsamplers])
  have h2 := h.2.1 rfl (by decide) rfl
  simpa [c1Field, mkDynamicSumField, addSourceField, defaultDownsamplers, c1Desc,
         dsNumeric] using h2

/-- Error propagation through the derived-source loop: processing a source
prefix successfully and then failing on the remaining locators fails the
whole loop, preserving the trace reached at the failure. -/
theorem derivedSources_append_error
    (ens : FieldData → DescData → St → Except Err (Option Nat) × St)
    (env : Env) (desc : DescData) :
    ∀ (pre rest : List (Option String × String)) (st : St)
      (r1 : List (Option String × Option Nat)) (st1 : St) (e : Err) (st2 : St),
    derivedSources ens env desc pre st = (.ok r1, st1) →
    derivedSources ens env desc rest st1 = (.error e, st2) →
    derivedSources ens env desc (pre ++ rest) st = (.error e, st2) := by
  intro pre
  induction pre with
  | nil =>
    intro rest st r1 st1 e st2 hpre hrest
    simp only [derivedSources, Prod.mk.injEq] at hpre
    rw [List.nil_append, hpre.2]
    exact hrest
  | cons p pre2 ih =>
    intro rest st r1 st1 e st2 hpre hrest
    obtain ⟨nm, loc⟩ := p
    simp only [derivedSources] at hpre
    simp only [List.cons_append, derivedSources]
    cases hs : splitOnChar '#' loc.toList with
    | nil => rw [hs] at hpre; simp at hpre
    | cons a t =>
      cases t with
      | nil => rw [hs] at hpre; simp at hpre
      | cons b t2 =>
        cases t2 with
        | cons cc t3 => rw [hs] at hpre; simp at hpre
        | nil =>
          rw [hs] at hpre
          dsimp only at hpre ⊢
          cases hm : resolveModelRef desc (String.mk a) with
          | error e2 => rw [hm] at hpre; simp at hpre
          | ok mdl =>
            rw [hm] at hpre
            dsimp only at hpre ⊢
            cases hp : env.pool mdl with
            | none => rw [hp] at hpre; simp at hpre
            | some mdesc =>
              rw [hp] at hpre
              dsimp only at hpre ⊢
              cases hf : lookupN mdesc.fields (String.mk b) with
              | none => rw [hf] at hpre; simp at hpre
              | some sfid =>
                rw [hf] at hpre
                dsimp only at hpre ⊢
                cases he : ens (env.fields sfid) mdesc st with
                | mk res st3 =>
                  rw [he] at hpre
                  cases res with
                  | error e2 => simp at hpre
                  | ok sidOpt =>
                    dsimp only at hpre ⊢
                    cases hd2 : derivedSources ens env desc pre2 st3 with
                    | mk res2 st4 =>
                      rw [hd2] at hpre
                      cases res2 with
                      | error e2 => simp at hpre
                      | ok tl =>
                        simp only [Prod.mk.injEq, Except.ok.injEq] at hpre
                        obtain ⟨_, hst4⟩ := hpre
                        subst hst4
                        simp only [List.append_eq]
                        simp only [ih rest st3 tl st4 e st2 hd2 hrest]

/-- C6: when a derived field's locator names a field absent from the target
descriptor's field map, `ensure_stream` raises `ImproperlyConfigured` naming
the locator, with the trace still at the source-prefix state — no ensure
call for the derived field itself is ever issued. -/
theorem derived_missing_field_error (env : Env) (oracle : Nat → Resp) (fuel : Nat)
    (f : FieldData) (desc : DescData)
    (pre post : List (Option String × String)) (nm : Option String) (loc : String)
    (op : String) (args : Dict)
    (n0 : Nat) (streams0 : List (Option String × Option Nat)) (st1 : St)
    (mrefCs fnameCs : List Char) (mdl : Nat) (mdesc : DescData)
    (hkind : f.kind = .derived (pre ++ (nm, loc) :: post) op args)
    (hpre : derivedSources (fun sf sd stx => ensureStreamF env oracle fuel sf sd stx)
              env desc pre (n0, []) = (.ok streams0, st1))
    (hsplit : splitOnChar '#' loc.toList = [mrefCs, fnameCs])
    (hmdl : resolveModelRef desc (String.mk mrefCs) = .ok mdl)
    (hpool : env.pool mdl = some mdesc)
    (hfield : lookupN mdesc.fields (String.mk fnameCs) = none) :
    ensureStreamF env oracle (fuel + 1) f desc (n0, []) =
      (.error (.improperlyConfigured ("Datastream field \x27" ++ loc ++ "\x27 not found!")),
       st1) := by
  have hstep : derivedSources (fun sf sd stx => ensureStreamF env oracle fuel sf sd stx)
      env desc ((nm, loc) :: post) st1 =
      (.error (.improperlyConfigured ("Datastream field \x27" ++ loc ++ "\x27 not found!")),
       st1) := by
    simp only [derivedSources, hsplit]
    try dsimp only
    simp only [hmdl]
    try dsimp only
    simp only [hpool]
    try dsimp only
    simp only [hfield]
  have hall := derivedSources_append_error
    (fun sf sd stx => ensureStreamF env oracle fuel sf sd stx) env desc
    pre ((nm, loc) :: post) (n0, []) streams0 st1 _ st1 hpre hstep
  simp only [ensureStreamF, hkind, hall]

/-- Concrete descriptor for the C6 witness: model 2, no fields. -/
def c6Desc : DescData := ⟨2, [], [], 0, [], []⟩

/-- Environment for the C6 witness: the pool resolves model 2 to `c6Desc`. -/
def c6Env : Env :=
  ⟨fun _ => mkField "src" none none none "numeric",
   fun m => if m = 2 then some c6Desc else none,
   fun _ _ _ => .null, fun _ _ => none, fun _ _ => .pnone⟩

/-- A derived field whose only locator names the missing field `gone` on the
current descriptor. -/
def c6Field : FieldData :=
  mkDerivedField [(some "reset", "#gone")] "counter_reset" none "drv" none none "nominal"

/-- Witness for C6: the missing-field configuration error is raised before
any store call. -/
theorem derived_missing_field_error_witness :
    ensureStreamF c6Env (fun _ => .sid 0) 1 c6Field c6Desc (0, []) =
      (.error (.improperlyConfigured
        ("Datastream field \x27" ++ "#gone" ++ "\x27 not found!")), (0, [])) :=
  derived_missing_field_error c6Env (fun _ => .sid 0) 0 c6Field c6Desc
    [] [] (some "reset") "#gone" "counter_reset" [] 0 [] (0, [])
    [] "gone".toList 2 c6Desc
    rfl (by simp [derivedSources]) (by decide) rfl rfl rfl

/-- C10, amended: a derived-field locator with zero or more than one `#`
fails the two-way split-and-unpack; `ensure_stream` raises before resolving
that locator's descriptor or issuing any store call on its behalf (sources
earlier in the list have already been ensured, so the trace holds exactly
their calls). -/
theorem derived_locator_split (env : Env) (oracle : Nat → Resp) (fuel : Nat)
    (f : FieldData) (desc : DescData)
    (pre post : List (Option String × String)) (nm : Option String) (loc : String)
    (op : String) (args : Dict)
    (n0 : Nat) (streams0 : List (Option String × Option Nat)) (st1 : St)
    (hkind : f.kind = .derived (pre ++ (nm, loc) :: post) op args)
    (hpre : derivedSources (fun sf sd stx => ensureStreamF env oracle fuel sf sd stx)
              env desc pre (n0, []) = (.ok streams0, st1))
    (hcount : loc.toList.count '#' ≠ 1) :
    ensureStreamF env oracle (fuel + 1) f desc (n0, []) =
      (.error (.valueError "unpack"), st1) := by
  have hlen : (splitOnChar '#' loc.toList).length ≠ 2 := by
    rw [splitOnChar_length]
    omega
  have hstep : derivedSources (fun sf sd stx => ensureStreamF env oracle fuel sf sd stx)
      env desc ((nm, loc) :: post) st1 = (.error (.valueError "unpack"), st1) := by
    simp only [derivedSources]
    cases hs : splitOnChar '#' loc.toList with
    | nil => rfl
    | cons a t =>
      cases t with
      | nil => rfl
      | cons b t2 =>
        cases t2 with
        | nil =>
          exfalso
          apply hlen
          rw [hs]
          rfl
        | cons cc t3 => rfl
  have hall := derivedSources_append_error
    (fun sf sd stx => ensureStreamF env oracle fuel sf sd stx) env desc
    pre ((nm, loc) :: post) (n0, []) streams0 st1 _ st1 hpre hstep
  simp only [ensureStreamF, hkind, hall]

/-- Witness for C10 (amended): a locator without `#` fails the unpack
immediately; as the first source, nothing reaches the store. -/
theorem derived_locator_split_witness :
    ensureStreamF c6Env (fun _ => .sid 0) 1
      (mkDerivedField [(none, "bad")] "sum" none "drv" none none "numeric")
      c6Desc (0, []) =
      (.error (.valueError "unpack"), (0, [])) :=
  derived_locator_split c6Env (fun _ => .sid 0) 0
    (mkDerivedField [(none, "bad")] "sum" none "drv" none none "numeric") c6Desc
    [] [] none "bad" "sum" [] 0 [] (0, [])
    rfl (by simp [derivedSources]) (by decide)

/-- Descriptor for the C10 counterexample: model 3, one field `src`. -/
def c10Desc : DescData := ⟨3, [], [], 0, [], [("src", 0)]⟩

/-- Environment for the C10 counterexample. -/
def c10Env : Env :=
  ⟨fun _ => mkField "src" none none none "numeric",
   fun m => if m = 3 then some c10Desc else none,
   fun _ _ _ => .null, fun _ _ => none, fun _ _ => .pnone⟩

/-- C10 counterexample to the claim as frozen: with a valid first locator
`#src` and a malformed second locator `bad`, `ensure_stream` does raise the
unpack `ValueError`, but only after the first source's ensure call reached
the store — the trace is not empty, contradicting the claim's "raises before
resolving any descriptor or contacting the store" for "any" malformed
locator. -/
theorem derived_locator_split_cex :
    ensureStreamF c10Env (fun _ => .sid 5) 2
      (mkDerivedField [(some "reset", "#src"), (none, "bad")] "sum" none "drv" none none
        "numeric")
      c10Desc (0, []) =
      (.error (.valueError "unpack"), (1, [c1SrcCall])) := by
  simp [ensureStreamF, mkDerivedField, derivedSources, splitOnChar, resolveModelRef,
        lookupN, c10Env, c10Desc, plainEnsure, process_tags, processTagRefs,
        processTagRefsL, prepare_tags, prepare_query_tags, dictUpdate, merge_dict,
        insertD, lookupD, callStore, mkField, defaultDownsamplers, c1SrcCall, dsNumeric]

/-- C8: a plain (leaf) field whose resolved source attribute is `None` still
calls ensure-stream exactly once — the trace gains exactly the one ensure
call and nothing else — and never appends a datapoint; `to_stream` returns
without error. -/
theorem to_stream_skip_on_none (env : Env) (oracle : Nat → Resp) (fuel : Nat)
    (f : FieldData) (desc : DescData) (ts : Option Nat) (st : St)
    (attr : String) (qt : Dict) (tags : Tags) (n : Nat)
    (hkind : f.kind = .plain)
    (hattr : f.srcAttr = some (.inl attr))
    (hval : env.modelAttrs desc.model attr = some .pnone)
    (hpt : process_tags env f desc = .ok (qt, tags))
    (hok : oracle st.1 = .sid n) :
    toStreamF env oracle (fuel + 1) f desc ts st =
      (.ok (),
       (st.1 + 1,
        st.2 ++ [.ensure ⟨qt, tags, f.value_downsamplers, desc.highestGranularity,
                          none, none, none, none, f.value_type⟩])) := by
  simp only [toStreamF, hkind, getSourceValue, hattr, hval]
  simp only [ensureStreamF, hkind, plainEnsure, hpt, callStore, hok]

/-- Environment for the C8 witness: the model's `upt` attribute is `None`
this cycle. -/
def c8Env : Env :=
  ⟨fun _ => mkField "src" none none none "numeric", fun _ => none,
   fun _ _ _ => .null,
   fun _ a => if a = "upt" then some .pnone else none,
   fun _ _ => .pnone⟩

/-- Witness for C8: the skipped datapoint still ensures the stream, with no
append call in the trace. -/
theorem to_stream_skip_on_none_witness :
    toStreamF c8Env (fun _ => .sid 4) 1
      (mkField "uptime" (some (.inl "upt")) none none "numeric")
      ⟨0, [], [], 60, [], []⟩ none (0, []) =
      (.ok (),
       (1, [.ensure ⟨[("name", .str "uptime")], .map [("name", .str "uptime")],
                     some dsNumeric, 60, none, none, none, none, "numeric"⟩])) := by
  have h := to_stream_skip_on_none c8Env (fun _ => .sid 4) 0
    (mkField "uptime" (some (.inl "upt")) none none "numeric")
    ⟨0, [], [], 60, [], []⟩ none (0, [])
    "upt" [("name", .str "uptime")] (.map [("name", .str "uptime")]) 4
    rfl rfl rfl
    (by simp [process_tags, processTagRefs, processTagRefsL, prepare_tags,
              prepare_query_tags, dictUpdate, merge_dict, insertD, lookupD,
              mkField, defaultDownsamplers])
    rfl
  simpa [mkField, defaultDownsamplers, dsNumeric] using h
